import Mathlib

/-!
Verification development for the Ocean Sentinel environmental threat scoring
engine.  The analytic components (`backend/app/ml_models/`) are shallowly
embedded over `ℚ`:

* numeric cell values are modelled as rationals (the Python code computes in
  IEEE doubles; all thresholds and arithmetic used by the statements below are
  exact in `ℚ`),
* a pandas `DataFrame` of named numeric columns is modelled column-wise as a
  `List (String × List (Option ℚ))` (a `none` cell is `NaN`), and a frame whose
  missing values have already been removed or filled as
  `List (String × List ℚ)`,
* the fitted scikit-learn estimators are opaque to the source code under
  verification, so their per-call outputs (probability rows, regression
  outputs, outlier votes) enter the embedding as explicit arguments, and the
  square root used for standard deviations is an abstract function argument;
  every statement quantifies over them.
-/

namespace OceanSentinel

/-- Python `int(q)` on a float/rational: truncation toward zero. -/
def pyInt (q : ℚ) : ℤ :=
  if 0 ≤ q then ⌊q⌋ else ⌈q⌉

/-- Python `round(q)` (banker's rounding: ties go to the even integer). -/
def pyRound (q : ℚ) : ℤ :=
  if q - ⌊q⌋ < 1/2 then ⌊q⌋
  else if 1/2 < q - ⌊q⌋ then ⌊q⌋ + 1
  else if ⌊q⌋ % 2 = 0 then ⌊q⌋ else ⌊q⌋ + 1

/-- Python `round(q, 4)`: rounding to four decimal places. -/
def pyRound4 (q : ℚ) : ℚ :=
  (pyRound (q * 10000) : ℚ) / 10000

/-- Mean of a list of rationals, `np.mean` / `Series.mean`.
For the empty list this is `0/0 = 0` in `ℚ`; all uses below either guard
against the empty list as the Python code does or exploit that the guard and
the `ℚ` convention agree. -/
def lmean (l : List ℚ) : ℚ :=
  l.sum / l.length

/-- Minimum of a list (`Series.min`), `0` for the empty list (unused there). -/
def lmin (l : List ℚ) : ℚ :=
  match l with
  | [] => 0
  | x :: xs => xs.foldl min x

/-- Maximum of a list (`Series.max`), `0` for the empty list (unused there). -/
def lmax (l : List ℚ) : ℚ :=
  match l with
  | [] => 0
  | x :: xs => xs.foldl max x

/-- The list sorted ascending, as pandas/numpy do before quantile lookup. -/
def sortedVals (l : List ℚ) : List ℚ :=
  l.insertionSort (· ≤ ·)

/-- Linear-interpolation quantile on an already sorted list: the default
`interpolation='linear'` shared by `Series.quantile`, `Series.median` and
`np.percentile` (hence also by `RobustScaler`).  For `0 ≤ q ≤ 1` and a
nonempty list this is `v[⌊pos⌋] + (pos − ⌊pos⌋)·(v[⌊pos⌋+1] − v[⌊pos⌋])`
with `pos = q·(n−1)`. -/
def quantileSorted (s : List ℚ) (q : ℚ) : ℚ :=
  let n := s.length
  let pos : ℚ := q * ((n : ℚ) - 1)
  let fn : ℕ := (⌊pos⌋).toNat
  let vf := s.getD fn 0
  let vf1 := s.getD (fn + 1) vf
  vf + (pos - (fn : ℚ)) * (vf1 - vf)

/-- `Series.quantile q` on an arbitrarily ordered list of values. -/
def quantileVals (l : List ℚ) (q : ℚ) : ℚ :=
  quantileSorted (sortedVals l) q

/-!
## AnomalyDetector (`anomaly_detection.py`)

A prepared frame for the detector is modelled as a list of named columns.  In
`_statistical_anomaly_detection` every column is first stripped of its `NaN`
cells (`values = current_data[column].dropna()`), so a column is modelled by
the list of its non-null values; a column whose list is empty is skipped by
the loop, exactly as `if len(values) == 0: continue` does.

The textual fields (`description`, `recommendations`) and the per-column
diagnostic map (`baseline_comparison`) are deterministic renderings of the
numeric fields and are not modelled.
-/

/-- Result record of `detect_anomalies` (`AnomalyResult` dataclass), numeric
and list fields only. -/
structure AnomalyResult where
  is_anomaly : Bool
  anomaly_score : ℚ
  severity : ℕ
  confidence : ℚ
  affected_parameters : List String
  detection_method : String
  deriving Repr, DecidableEq

/-- The `self.parameter_weights` dictionary. -/
def parameter_weights_table : List (String × ℚ) :=
  [("temperature", 1), ("pressure", 12/10), ("wind_speed", 11/10),
   ("humidity", 8/10), ("pm25", 13/10), ("pm10", 12/10), ("ozone", 11/10),
   ("water_temperature", 1), ("salinity", 9/10), ("wave_height", 1),
   ("tide_level", 8/10), ("visibility", 9/10)]

/-- `self.parameter_weights.get(column, 1.0)`. -/
def parameter_weights (column : String) : ℚ :=
  (parameter_weights_table.lookup column).getD 1

/-- Z-score flag of `_statistical_anomaly_detection`:
`np.abs(stats.zscore(values)) > 3.0`.  `stats.zscore` uses the population
standard deviation (`ddof=0`), so `|z| > 3 ↔ n·(x−μ)² > 9·Σ(y−μ)²`; when the
deviation sum is zero the z-scores are `NaN` and the comparison is false,
which the strict inequality reproduces. -/
def zscoreFlag (l : List ℚ) (x : ℚ) : Bool :=
  let μ := lmean l
  let t := (l.map (fun y => (y - μ) ^ 2)).sum
  decide ((l.length : ℚ) * (x - μ) ^ 2 > 9 * t)

/-- IQR fence `lower_bound = Q1 - 1.5 * IQR` of the statistical path. -/
def iqrLowerBound (l : List ℚ) : ℚ :=
  quantileVals l (1/4) - 3/2 * (quantileVals l (3/4) - quantileVals l (1/4))

/-- IQR fence `upper_bound = Q3 + 1.5 * IQR` of the statistical path. -/
def iqrUpperBound (l : List ℚ) : ℚ :=
  quantileVals l (3/4) + 3/2 * (quantileVals l (3/4) - quantileVals l (1/4))

/-- A point flagged by either test: `z_anomalies | iqr_anomalies`. -/
def statFlag (l : List ℚ) (x : ℚ) : Bool :=
  zscoreFlag l x || decide (x < iqrLowerBound l) || decide (iqrUpperBound l < x)

/-- `anomaly_count = np.sum(z_anomalies | iqr_anomalies)` for one column. -/
def anomalyCount (l : List ℚ) : ℕ :=
  l.countP (statFlag l)

/-- `anomaly_ratio = anomaly_count / len(values)` (named `Frac` here; `0` for
an empty column under the `ℚ` convention `0/0 = 0`, which the loop never
reads because empty columns are skipped). -/
def anomalyFrac (l : List ℚ) : ℚ :=
  (anomalyCount l : ℚ) / l.length

/-- `weighted_score = anomaly_ratio * weight` of one named column. -/
def weightedScore (c : String × List ℚ) : ℚ :=
  anomalyFrac c.2 * parameter_weights c.1

/-- The accumulating loop of `_statistical_anomaly_detection`: walking the
columns in order, skipping empty ones, and appending to
`affected_parameters` and `anomalies` when `weighted_score > 0.3`. -/
def statLoop (t : List (String × List ℚ)) : List String × List ℚ :=
  t.foldl
    (fun acc c =>
      if c.2.length = 0 then acc
      else if 3/10 < weightedScore c then
        (acc.1 ++ [c.1], acc.2 ++ [weightedScore c])
      else acc)
    ([], [])

/-- `_calculate_severity` with the default `severity_thresholds`
(`low 0.6, medium 0.75, high 0.85, critical 0.95`). -/
def calculate_severity (score : ℚ) : ℕ :=
  if 95/100 ≤ score then 5
  else if 85/100 ≤ score then 4
  else if 75/100 ≤ score then 3
  else if 6/10 ≤ score then 2
  else 1

/-- Overall score of the statistical path:
`np.mean(anomalies) if anomalies else 0.0`. -/
def statOverallScore (t : List (String × List ℚ)) : ℚ :=
  if (statLoop t).2 = [] then 0 else lmean (statLoop t).2

/-- `_statistical_anomaly_detection` assembled into an `AnomalyResult`:
`is_anomaly = overall_score > 0.5`, `anomaly_score = round(overall_score, 4)`,
severity from `_calculate_severity`, `confidence = min(overall_score*2, 1.0)`
rounded to 4 places. -/
def statistical_anomaly_detection (t : List (String × List ℚ)) : AnomalyResult :=
  let overall := statOverallScore t
  { is_anomaly := decide (1/2 < overall)
    anomaly_score := pyRound4 overall
    severity := calculate_severity overall
    confidence := pyRound4 (min (overall * 2) 1)
    affected_parameters := (statLoop t).1
    detection_method := "statistical" }

/-- `_create_empty_result` (numeric fields). -/
def create_empty_result : AnomalyResult :=
  { is_anomaly := false
    anomaly_score := 0
    severity := 1
    confidence := 0
    affected_parameters := []
    detection_method := "none" }

/-- Stored baseline statistics (`self.baseline_stats`), as lookup lists with
the `.get(col, d)` defaults used by `_identify_affected_parameters`. -/
structure BaselineStats where
  mean : List (String × ℚ)
  std : List (String × ℚ)
  min : List (String × ℚ)
  max : List (String × ℚ)
  deriving Repr

/-- Dictionary lookup `d.get(k, default)`. -/
def dictGet (d : List (String × ℚ)) (k : String) (default : ℚ) : ℚ :=
  match d.lookup k with
  | some v => v
  | none => default

/-- `_identify_affected_parameters`: with no baseline every column is
affected; otherwise a column is affected when its latest value deviates more
than 2 baseline standard deviations from the baseline mean, or lies below
`0.8·min` or above `1.2·max` (only checked when the baseline std is
positive).  Columns with no values are skipped. -/
def identify_affected_parameters (hasBaseline : Bool) (bs : BaselineStats)
    (t : List (String × List ℚ)) : List String :=
  if !hasBaseline then t.map Prod.fst
  else
    t.foldl
      (fun acc c =>
        match c.2.getLast? with
        | none => acc
        | some latest =>
          let bmean := dictGet bs.mean c.1 0
          let bstd := dictGet bs.std c.1 1
          let bmin := dictGet bs.min c.1 0
          let bmax := dictGet bs.max c.1 0
          if 0 < bstd ∧
              (2 < |(latest - bmean) / bstd| ∨ latest < bmin * 8/10 ∨
                bmax * 12/10 < latest) then
            acc ++ [c.1]
          else acc)
      []

/-- `_ml_anomaly_detection` with the fitted detectors abstracted: `votes`
lists, per detector that produced output, the `-1/1` predictions over the
current rows (`anomaly_ratio = np.sum(predictions == -1)/len(predictions)`).
The continuous `scores` only feed the unmodelled diagnostics.  With no
surviving detector the code returns the empty result. -/
def mlScores (votes : List (List ℤ)) : List ℚ :=
  votes.map (fun p => ((p.countP (fun v => decide (v = -1))) : ℚ) / p.length)

def ml_anomaly_detection (votes : List (List ℤ)) (hasBaseline : Bool)
    (bs : BaselineStats) (t : List (String × List ℚ)) : AnomalyResult :=
  if mlScores votes = [] then create_empty_result
  else
    { is_anomaly := decide (1/10 < lmean (mlScores votes))
      anomaly_score := pyRound4 (lmean (mlScores votes))
      severity := calculate_severity (lmean (mlScores votes) * 5)
      confidence := pyRound4 (min (lmean (mlScores votes) * 3) 1)
      affected_parameters := identify_affected_parameters hasBaseline bs t
      detection_method := "ensemble_ml" }

/-!
## ThreatDetectionEngine (`threat_detection.py`)

`detect_threats` runs `_prepare_features` (wide records, `fillna(0)`) and then
per threat type either the trained ensemble or the rule-based fallback.  The
frame is modelled as named total numeric columns; the latest row is read
through `feature_data.iloc[-1]` with `.get(name, default)` lookups.
-/

/-- Result record of `_detect_single_threat` (`ThreatDetectionResult`
dataclass); `description`, `model_scores`, timing and metadata are
deterministic renderings of these fields and are not modelled. -/
structure ThreatDetectionResult where
  threat_type : String
  confidence : ℚ
  severity : ℕ
  detected : Bool
  features_used : List String
  deriving Repr, DecidableEq

/-- `self.confidence_thresholds`. -/
def confidence_thresholds (threat : String) : ℚ :=
  if threat = "storm" then 80/100
  else if threat = "pollution" then 75/100
  else if threat = "erosion" then 70/100
  else if threat = "algal_bloom" then 80/100
  else if threat = "illegal_dumping" then 85/100
  else 0

/-- `self.threat_features`: required feature subset per threat type. -/
def threat_features (threat : String) : List String :=
  if threat = "storm" then
    ["wind_speed", "pressure", "temperature", "humidity", "visibility",
     "wind_direction"]
  else if threat = "pollution" then
    ["pm25", "pm10", "ozone", "wind_speed", "temperature", "humidity"]
  else if threat = "erosion" then
    ["wave_height", "tide_level", "wind_speed", "precipitation", "temperature"]
  else if threat = "algal_bloom" then
    ["water_temperature", "salinity", "visibility", "wave_height", "tide_level"]
  else if threat = "illegal_dumping" then
    ["visibility", "wind_speed", "wave_height", "water_temperature"]
  else []

/-- The latest row of the feature frame: `latest_data.get(name, default)`
reads the last cell of the named column, or the default when the column is
absent (an absent key in a pandas `Series.get`). -/
def latestGet (t : List (String × List ℚ)) (name : String) (default : ℚ) : ℚ :=
  match t.lookup name with
  | some col => col.getLast?.getD default
  | none => default

/-- The wind-speed bracket ladder of the `'storm'` branch of
`_rule_based_detection`. -/
def storm_base (wind_speed : ℚ) : ℚ × ℕ :=
  if wind_speed > 118 then (95/100, 5)
  else if wind_speed > 88 then (85/100, 4)
  else if wind_speed > 62 then (75/100, 3)
  else if wind_speed > 39 then (65/100, 2)
  else (0, 1)

/-- The `threat_type == 'storm'` branch of `_rule_based_detection`: the
wind-speed bracket ladder followed by the low-pressure bonus. -/
def storm_rule (wind_speed pressure : ℚ) : ℚ × ℕ :=
  if pressure < 980 then
    (min ((storm_base wind_speed).1 + 15/100) 1,
     min ((storm_base wind_speed).2 + 1) 5)
  else storm_base wind_speed

/-- The `'pollution'` branch: the PM2.5 ladder and the PM10 override. -/
def pollution_rule (pm25 pm10 : ℚ) : ℚ × ℕ :=
  let base : ℚ × ℕ :=
    if pm25 > 75 then (90/100, 5)
    else if pm25 > 55 then (80/100, 4)
    else if pm25 > 35 then (70/100, 3)
    else if pm25 > 25 then (60/100, 2)
    else (0, 1)
  if pm10 > 150 then (max base.1 (80/100), max base.2 4)
  else base

/-- The `'algal_bloom'` branch: summed temperature/visibility/salinity
factors capped at 1, severity `max(1, min(5, int(confidence*5)+1))`. -/
def algal_bloom_rule (water_temp visibility salinity : ℚ) : ℚ × ℕ :=
  let temp_factor : ℚ :=
    if water_temp > 28 then 4/10 else if water_temp > 25 then 2/10 else 0
  let visibility_factor : ℚ :=
    if visibility < 2 then 5/10 else if visibility < 5 then 3/10 else 0
  let salinity_factor : ℚ :=
    if 30 ≤ salinity ∧ salinity ≤ 38 then 2/10 else 0
  let confidence := min (temp_factor + visibility_factor + salinity_factor) 1
  (confidence, (max 1 (min 5 (pyInt (confidence * 5) + 1))).toNat)

/-- The `'erosion'` branch: weighted wave/wind factors, severity
`max(1, min(5, int(confidence*4)+1))`. -/
def erosion_rule (wave_height wind_speed : ℚ) : ℚ × ℕ :=
  let wave_factor := min (wave_height / 10) 1
  let wind_factor := min (wind_speed / 100) 1
  let confidence := wave_factor * 6/10 + wind_factor * 4/10
  (confidence, (max 1 (min 5 (pyInt (confidence * 4) + 1))).toNat)

/-- The `'illegal_dumping'` branch: a reduced-visibility indicator. -/
def illegal_dumping_rule (visibility : ℚ) : ℚ × ℕ :=
  if visibility < 3 then (60/100, 3) else (0, 1)

/-- `_rule_based_detection`, the `(confidence, severity)` pair per category,
computed from the latest row only (`threat_detection.py` lines 335-428);
unknown categories keep the initial `(0.0, 1)`. -/
def rule_based_detection (threat : String) (t : List (String × List ℚ)) :
    ℚ × ℕ :=
  if threat = "storm" then
    storm_rule (latestGet t "wind_speed" 0) (latestGet t "pressure" 1013)
  else if threat = "pollution" then
    pollution_rule (latestGet t "pm25" 0) (latestGet t "pm10" 0)
  else if threat = "algal_bloom" then
    algal_bloom_rule (latestGet t "water_temperature" 20)
      (latestGet t "visibility" 10) (latestGet t "salinity" 35)
  else if threat = "erosion" then
    erosion_rule (latestGet t "wave_height" 0) (latestGet t "wind_speed" 0)
  else if threat = "illegal_dumping" then
    illegal_dumping_rule (latestGet t "visibility" 10)
  else (0, 1)

/-- One ensemble member's vote in `_predict_with_ensemble`: from the first
row of `predict_proba` output, the top-class probability when the row has
more than one class, otherwise the single probability (the row is never
empty for a fitted scikit-learn classifier). -/
def modelVoteConfidence (row : List ℚ) : ℚ :=
  if 1 < row.length then lmax row else row.getD 0 0

/-- `_predict_with_ensemble` on the probability rows of the models whose
`predict_proba` call succeeded: mean confidence, and severity
`max(1, min(5, int(avg_confidence * 5) + 1))`.  With no surviving model the
code returns `(0.0, 1)`.  (The discrete `predictions` votes are averaged
into `avg_prediction`, which the function never uses.) -/
def predict_with_ensemble (rows : List (List ℚ)) : ℚ × ℕ :=
  if rows.map modelVoteConfidence = [] then (0, 1)
  else
    (lmean (rows.map modelVoteConfidence),
     (max 1 (min 5 (pyInt (lmean (rows.map modelVoteConfidence) * 5) + 1))).toNat)

/-- `_detect_single_threat`: `None` when fewer than 2 of the category's
required features are present; otherwise the `(confidence, severity)` pair
from the trained ensemble (whose probability rows are the `rows` argument)
or the rule-based fallback, assembled with
`detected = confidence >= threshold` and `confidence` rounded to 4 places. -/
def detect_single_threat (threat : String) (t : List (String × List ℚ))
    (is_trained : Bool) (rows : List (List ℚ)) :
    Option ThreatDetectionResult :=
  if ((threat_features threat).filter (fun f => (t.lookup f).isSome)).length < 2
  then none
  else
    some
      { threat_type := threat
        confidence := pyRound4
          ((if is_trained then predict_with_ensemble rows
            else rule_based_detection threat t).1)
        severity :=
          (if is_trained then predict_with_ensemble rows
            else rule_based_detection threat t).2
        detected := decide (confidence_thresholds threat ≤
          (if is_trained then predict_with_ensemble rows
            else rule_based_detection threat t).1)
        features_used :=
          (threat_features threat).filter (fun f => (t.lookup f).isSome) }

/-!
## ThreatPredictor (`prediction_models.py`)

`predict_threats` prepares a wide frame (`fillna(0)`), requires at least
`minimum_data_points = 50` rows, and per known parameter column runs
`_predict_parameter`.  The fitted regressors are opaque: their per-horizon
prediction lists enter as an `oracle` argument (`none` models the branch in
which every model's `predict` raised).  The single irrational operation, the
float square root used for window standard deviations and for the ensemble
spread, is abstracted as `sqrtQ`; no claim below depends on its values.
-/

/-- `self.forecast_horizons` default (`forecast_horizon_hours`). -/
def forecast_horizons : List ℕ := [2, 4, 8, 24]

/-- `self.min_data_points` default (`minimum_data_points`). -/
def min_data_points : ℕ := 50

/-- `self.prediction_parameters`. -/
def prediction_parameters : List String :=
  ["temperature", "pressure", "wind_speed", "humidity", "pm25", "pm10",
   "ozone", "water_temperature", "wave_height", "tide_level", "visibility",
   "salinity"]

/-- The `self.risk_thresholds` dictionary. -/
def risk_thresholds_table : List (String × List ℚ) :=
  [("wind_speed", [39, 62, 88, 118]), ("pressure", [1000, 990, 980, 970]),
   ("pm25", [25, 35, 55, 75]), ("pm10", [50, 100, 150, 250]),
   ("wave_height", [2, 4, 6, 8]), ("temperature", [30, 35, 40, 45]),
   ("water_temperature", [25, 28, 30, 32]), ("visibility", [5, 3, 2, 1])]

/-- Threshold lookup of `_assess_threat_severity`
(`parameter not in self.risk_thresholds` yields `none`). -/
def risk_thresholds (parameter : String) : Option (List ℚ) :=
  risk_thresholds_table.lookup parameter

/-- The descending-threshold loop of `_assess_threat_severity`: return
`i + 2` for the first listed threshold with `value <= threshold`, else 1. -/
def descendingSeverity (thresholds : List ℚ) (value : ℚ) (i : ℕ) : ℕ :=
  match thresholds with
  | [] => 1
  | th :: rest =>
    if value ≤ th then i + 2 else descendingSeverity rest value (i + 1)

/-- The ascending-threshold loop of `_assess_threat_severity`: the last
`i + 2` with `value >= threshold` (starting from severity 1), capped at 5. -/
def ascendingSeverity (thresholds : List ℚ) (value : ℚ) : ℕ :=
  min
    ((List.range thresholds.length).foldl
      (fun severity i =>
        if thresholds.getD i 0 ≤ value then i + 2 else severity)
      1)
    5

/-- `_assess_threat_severity`: severity of a (possibly predicted) value,
with the special descending handling for `pressure` and `visibility`. -/
def assess_threat_severity (parameter : String) (value : ℚ) : ℕ :=
  match risk_thresholds parameter with
  | none => 1
  | some thresholds =>
    if parameter = "pressure" ∨ parameter = "visibility" then
      descendingSeverity thresholds value 0
    else ascendingSeverity thresholds value

/-- Sample variance with `ddof=1` (`Series.std` squared); `0` for lists of
length ≤ 1 where pandas yields `NaN` (the windows below always have length
≥ 3, so the convention is never read). -/
def sampleVar (l : List ℚ) : ℚ :=
  if l.length ≤ 1 then 0
  else (l.map (fun y => (y - lmean l) ^ 2)).sum / ((l.length : ℚ) - 1)

/-- Population variance with `ddof=0` (`np.std` squared). -/
def popVar (l : List ℚ) : ℚ :=
  (l.map (fun y => (y - lmean l) ^ 2)).sum / l.length

/-- The sliding window of `_create_time_series_features` for index `i`:
`values.iloc[i-window_size:i]`. -/
def tsWindow (values : List ℚ) (window_size i : ℕ) : List ℚ :=
  (values.drop (i - window_size)).take window_size

/-- Feature vector of one training example: the window's raw values followed
by mean, standard deviation (`sqrtQ` of the sample variance), min, max, last
change and average slope. -/
def tsFeatureVector (sqrtQ : ℚ → ℚ) (w : List ℚ) : List ℚ :=
  w ++
    [lmean w, sqrtQ (sampleVar w), lmin w, lmax w,
     if 1 < w.length then w.getLast?.getD 0 - (w.getD (w.length - 2) 0) else 0,
     if 1 < w.length then (w.getLast?.getD 0 - w.getD 0 0) / w.length else 0]

/-- `window_size = max(3, min(24, len(values) // 3))`. -/
def tsWindowSize (values : List ℚ) : ℕ :=
  max 3 (min 24 (values.length / 3))

/-- `_create_time_series_features values max_forecast_hour`: the `(X, y)`
pair built by the loop
`for i in range(window_size, len(values) - max_forecast_hour)` with
`y.append(values.iloc[i + max_forecast_hour])`. -/
def create_time_series_features (sqrtQ : ℚ → ℚ) (values : List ℚ)
    (max_forecast_hour : ℕ) : List (List ℚ) × List ℚ :=
  let ws := tsWindowSize values
  let idxs := List.range' ws (values.length - max_forecast_hour - ws)
  (idxs.map (fun i => tsFeatureVector sqrtQ (tsWindow values ws i)),
   idxs.map (fun i => values.getD (i + max_forecast_hour) 0))

/-- Python `max(list)` for the nonempty horizon lists passed to
`_create_time_series_features`. -/
def maxNat (l : List ℕ) : ℕ :=
  l.foldl max 0

/-- The training data `_predict_parameter` hands to
`_train_parameter_models` for each requested horizon: `X, y` are computed
once, before the horizon loop, from `max(forecast_hours)` (lines 252 and
263), so every horizon receives the same pair. -/
def predictParameterTrainingSets (sqrtQ : ℚ → ℚ) (values : List ℚ)
    (fhs : List ℕ) : List (ℕ × (List (List ℚ) × List ℚ)) :=
  let xy := create_time_series_features sqrtQ values (maxNat fhs)
  fhs.map (fun fh => (fh, xy))

/-- A predicted-alert entry of `predict_threats` (`alerts_predicted`); the
generated description string is not modelled. -/
structure PredictedAlert where
  parameter : String
  forecast_hour : ℕ
  predicted_value : ℚ
  severity : ℕ
  confidence : ℚ
  deriving Repr, DecidableEq

/-- Result record of `predict_threats` (`PredictionResult` dataclass);
`model_performance` and the non-error metadata entries are aggregates of
the training diagnostics and are not modelled, `metadata_error` models the
`{'error': message}` dictionary of `_create_empty_prediction`. -/
structure PredictionResult where
  predictions : List (String × List ℚ)
  forecast_hours : List ℕ
  confidence_intervals : List (String × List (ℚ × ℚ))
  trend_analysis : List (String × String)
  risk_assessment : List (String × ℕ)
  alerts_predicted : List PredictedAlert
  metadata_error : Option String
  deriving Repr

/-- `_create_empty_prediction message`. -/
def create_empty_prediction (message : String) : PredictionResult :=
  { predictions := []
    forecast_hours := forecast_horizons
    confidence_intervals := []
    trend_analysis := []
    risk_assessment := []
    alerts_predicted := []
    metadata_error := some message }

/-- `_analyze_trend`: relative change of the furthest prediction against the
latest observation (`NaN`-free rational fragment: a zero current value makes
the Python expression raise into the `"unknown"` handler, reproduced
explicitly). -/
def analyze_trend (values : List ℚ) (predictions : List ℚ) : String :=
  if predictions.length = 0 ∨ values.length = 0 then "unknown"
  else
    let current := values.getLast?.getD 0
    if current = 0 then "unknown"
    else
      let change := (predictions.getLast?.getD 0 - current) / current * 100
      if |change| < 5 then "stable"
      else if 0 < change then "increasing"
      else "decreasing"

/-- `_simple_trend_prediction`: ordinary least squares line through the last
`min(12, len)` points (`np.polyfit(x, y, 1)`), extrapolated to
`len(recent) + forecast_hour`.  The closed form of the degree-1 fit is
rational.  For fewer than 2 points the latest value (or 0) is returned. -/
def simple_trend_prediction (values : List ℚ) (forecast_hour : ℕ) : ℚ :=
  if values.length < 2 then values.getLast?.getD 0
  else
    let recent := values.drop (values.length - min 12 values.length)
    let n := recent.length
    let xs : List ℚ := (List.range n).map (fun i => (i : ℚ))
    let xbar := lmean xs
    let ybar := lmean recent
    let sxy := ((xs.zip recent).map (fun p => (p.1 - xbar) * (p.2 - ybar))).sum
    let sxx := (xs.map (fun x => (x - xbar) ^ 2)).sum
    let slope := sxy / sxx
    let intercept := ybar - slope * xbar
    slope * ((n : ℚ) + (forecast_hour : ℚ)) + intercept

/-- Per-horizon ensemble outputs for `_predict_parameter`, abstracting the
fitted regressors: `oracle parameter fh` is the list of the successful
models' predictions on the latest feature row (`none` when the model
dictionary for the pair is missing, which routes to the simple-trend
fallback; `some []` when every model's `predict` raised, which routes to the
last-value fallback). -/
def PredictOracle := String → ℕ → Option (List ℚ)

/-- The body of `_predict_parameter`'s horizon loop for one horizon:
`(prediction, confidence_interval)`. -/
def predictHorizon (sqrtQ : ℚ → ℚ) (oracle : PredictOracle)
    (parameter : String) (values : List ℚ) (fh : ℕ) : ℚ × (ℚ × ℚ) :=
  match oracle parameter fh with
  | none =>
    let p := simple_trend_prediction values fh
    (p, (p * 9/10, p * 11/10))
  | some [] =>
    let lv := values.getLast?.getD 0
    (lv, (lv * 95/100, lv * 105/100))
  | some preds =>
    let avg := lmean preds
    let sd := sqrtQ (popVar preds)
    (avg, (avg - 196/100 * sd, avg + 196/100 * sd))

/-- `_predict_parameter`: `(predictions, confidence_intervals, trend,
risk_level)` for one parameter, `([], [], tag, 1)` when fewer than 10
values or no training example exists. -/
def predict_parameter (sqrtQ : ℚ → ℚ) (oracle : PredictOracle)
    (parameter : String) (values : List ℚ) (fhs : List ℕ) :
    List ℚ × List (ℚ × ℚ) × String × ℕ :=
  if values.length < 10 then ([], [], "insufficient_data", 1)
  else if (create_time_series_features sqrtQ values (maxNat fhs)).1.length = 0
      then ([], [], "insufficient_features", 1)
  else
    let out := fhs.map (predictHorizon sqrtQ oracle parameter values)
    let predictions := out.map Prod.fst
    let intervals := out.map Prod.snd
    let max_predicted := if predictions = [] then 0 else lmax predictions
    (predictions, intervals, analyze_trend values predictions,
     assess_threat_severity parameter max_predicted)

/-- The alert-collection loop of `predict_threats` for one parameter:
`for i, hour in enumerate(forecast_hours)`, appending an entry whenever the
corresponding predicted value reaches severity ≥ 3. -/
def alertsFor (parameter : String) (fhs : List ℕ) (predictions : List ℚ)
    (intervals : List (ℚ × ℚ)) : List PredictedAlert :=
  ((List.range fhs.length).filterMap
    (fun i =>
      if predictions ≠ [] ∧ i < predictions.length then
        if 3 ≤ assess_threat_severity parameter (predictions.getD i 0) then
          some
            { parameter := parameter
              forecast_hour := fhs.getD i 0
              predicted_value := predictions.getD i 0
              severity := assess_threat_severity parameter (predictions.getD i 0)
              confidence :=
                if intervals ≠ [] then
                  (intervals.getD i (0, 0)).2 - (intervals.getD i (0, 0)).1
                else 1/2 }
        else none
      else none))

/-- `_prepare_features` of the predictor on the wide numeric fragment:
`fillna(0)` on every column (pivoting and timestamp sorting concern the
long/timestamped fragments, which the claims below do not touch). -/
def predictor_prepare_features (t : List (String × List (Option ℚ))) :
    List (String × List ℚ) :=
  t.map (fun c => (c.1, c.2.map (fun v => v.getD 0)))

/-- Number of rows of a column-wise frame (`len(df)`). -/
def nRows (t : List (String × List (Option ℚ))) : ℕ :=
  (t.head?.map (fun c => c.2.length)).getD 0

/-- `predict_threats`: the insufficient-data guard
(`df.empty or len(df) < self.min_data_points`), then per known parameter the
per-parameter prediction and the alert collection.  `forecast_hours=None`
defaults to `forecast_horizons`. -/
def predictResults (sqrtQ : ℚ → ℚ) (oracle : PredictOracle)
    (df : List (String × List ℚ)) (forecast_hours : List ℕ) :
    List (String × (List ℚ × List (ℚ × ℚ) × String × ℕ)) :=
  (prediction_parameters.filter (fun p => (df.lookup p).isSome)).map
    (fun p =>
      (p, predict_parameter sqrtQ oracle p ((df.lookup p).getD [])
        forecast_hours))

/-- The non-degenerate branch of `predict_threats`: per present parameter the
`_predict_parameter` outputs and the collected alerts. -/
def predictThreatsBody (sqrtQ : ℚ → ℚ) (oracle : PredictOracle)
    (df : List (String × List ℚ)) (forecast_hours : List ℕ) :
    PredictionResult :=
  { predictions := (predictResults sqrtQ oracle df forecast_hours).map
      (fun r => (r.1, r.2.1))
    forecast_hours := forecast_hours
    confidence_intervals := (predictResults sqrtQ oracle df forecast_hours).map
      (fun r => (r.1, r.2.2.1))
    trend_analysis := (predictResults sqrtQ oracle df forecast_hours).map
      (fun r => (r.1, r.2.2.2.1))
    risk_assessment := (predictResults sqrtQ oracle df forecast_hours).map
      (fun r => (r.1, r.2.2.2.2))
    alerts_predicted :=
      ((predictResults sqrtQ oracle df forecast_hours).map
        (fun r => alertsFor r.1 forecast_hours r.2.1 r.2.2.1)).flatten
    metadata_error := none }

def predict_threats (sqrtQ : ℚ → ℚ) (oracle : PredictOracle)
    (data : List (String × List (Option ℚ))) (fhs : Option (List ℕ)) :
    PredictionResult :=
  if predictor_prepare_features data = [] ∨ nRows data < min_data_points then
    create_empty_prediction "Insufficient historical data"
  else
    predictThreatsBody sqrtQ oracle (predictor_prepare_features data)
      (fhs.getD forecast_horizons)

/-!
## DataPreprocessor (`data_preprocessing.py`)

`prepare_features` is modelled on the wide numeric fragment: a column-wise
frame `List (String × List (Option ℚ))` of numeric cells (`none` is `NaN`).
The long-format pivot, the datetime/spatial column handling, and the derived
features that need transcendental functions (`hour_sin`/`hour_cos`,
`month_sin`/`month_cos`, `wind_u`/`wind_v`) trigger only on frames containing
a `timestamp`/`data_type`/`value`/location/`wind_direction` column; every
theorem about the pipeline below excludes those column names by hypothesis.
The configuration is the module default from `ML_MODEL_CONFIG`:
`missing_value_strategy = 'interpolation'`,
`normalization_method = 'robust_scaler'`; `prepare_features` is called with
`target_variable=None`, so `_select_features` is skipped.
-/

/-- A column-wise numeric frame. -/
abbrev Frame := List (String × List (Option ℚ))

/-- Python `chr.lower()` on the ASCII range (column names in the fragment
are ASCII). -/
def pyLowerChar (c : Char) : Char :=
  if 65 ≤ c.toNat ∧ c.toNat ≤ 90 then Char.ofNat (c.toNat + 32) else c

/-- Python `str.strip()` whitespace set. -/
def pyIsSpace (c : Char) : Bool :=
  c = ' ' || c = '\t' || c = '\n' || c = '\r' || c = '\x0b' || c = '\x0c'

/-- Strip characters satisfying `p` from both ends (`str.strip`). -/
def stripChar (p : Char → Bool) (l : List Char) : List Char :=
  ((l.dropWhile p).reverse.dropWhile p).reverse

/-- The `while '__' in s: s = s.replace('__', '_')` loop of
`_standardize_column_name` reaches its fixpoint exactly when every maximal
run of underscores has collapsed to a single one; this recursion computes
that fixpoint directly. -/
def collapseUnderscores : List Char → List Char
  | [] => []
  | [c] => [c]
  | c :: d :: rest =>
    if c = '_' ∧ d = '_' then collapseUnderscores (d :: rest)
    else c :: collapseUnderscores (d :: rest)

/-- `_standardize_column_name`: lowercase, strip whitespace, replace
space/hyphen/dot with underscores, collapse repeated underscores, strip
underscores from the ends. -/
def standardize_column_name (s : String) : String :=
  ⟨stripChar (fun c => c = '_')
    (collapseUnderscores
      ((stripChar pyIsSpace (s.data.map pyLowerChar)).map
        (fun c => if c = ' ' || c = '-' || c = '.' then '_' else c)))⟩

/-- `self.parameter_mappings`. -/
def parameter_mappings : List (String × String) :=
  [("temp", "temperature"), ("air_temp", "temperature"),
   ("water_temp", "water_temperature"), ("sea_temp", "water_temperature"),
   ("rh", "humidity"), ("relative_humidity", "humidity"),
   ("wspd", "wind_speed"), ("wind", "wind_speed"), ("wdir", "wind_direction"),
   ("pres", "pressure"), ("atm_pressure", "pressure"), ("vis", "visibility"),
   ("wave", "wave_height"), ("tide", "tide_level"), ("sal", "salinity"),
   ("o3", "ozone"), ("no2", "nitrogen_dioxide"), ("so2", "sulfur_dioxide"),
   ("co", "carbon_monoxide")]

/-- The rename step of `_clean_and_standardize`: map a standardized column
name through the synonym table, keeping unknown names. -/
def renameColumn (n : String) : String :=
  (parameter_mappings.lookup n).getD n

/-- `self.parameter_ranges`. -/
def parameter_ranges (p : String) : Option (ℚ × ℚ) :=
  if p = "temperature" then some (-50, 60)
  else if p = "water_temperature" then some (-5, 40)
  else if p = "humidity" then some (0, 100)
  else if p = "pressure" then some (900, 1100)
  else if p = "wind_speed" then some (0, 200)
  else if p = "wind_direction" then some (0, 360)
  else if p = "visibility" then some (0, 50)
  else if p = "wave_height" then some (0, 30)
  else if p = "tide_level" then some (-5, 5)
  else if p = "salinity" then some (0, 45)
  else if p = "pm25" then some (0, 500)
  else if p = "pm10" then some (0, 1000)
  else if p = "ozone" then some (0, 300)
  else if p = "nitrogen_dioxide" then some (0, 200)
  else if p = "sulfur_dioxide" then some (0, 100)
  else if p = "carbon_monoxide" then some (0, 50)
  else none

/-- The range filter of `_clean_and_standardize`:
`df.loc[(df[col] < min) | (df[col] > max), col] = np.nan` (a `NaN` cell
compares false and stays `NaN`). -/
def rangeFilterColumn (name : String) (col : List (Option ℚ)) :
    List (Option ℚ) :=
  match parameter_ranges name with
  | none => col
  | some (lo, hi) =>
    col.map (fun x =>
      match x with
      | some v => if v < lo ∨ hi < v then none else some v
      | none => none)

/-- The renaming step of `_clean_and_standardize`: standardize each column
name and map it through the synonym table. -/
def clean_rename (t : Frame) : Frame :=
  t.map (fun c => (renameColumn (standardize_column_name c.1), c.2))

/-- The `dropna(axis=1, how='all')` step of `_clean_and_standardize`. -/
def clean_keep (t : Frame) : Frame :=
  t.filter (fun c => c.2.any (fun x => x.isSome))

/-- The valid-range filter of `_clean_and_standardize` over the frame. -/
def clean_range (t : Frame) : Frame :=
  t.map (fun c => (c.1, rangeFilterColumn c.1 c.2))

/-- `_clean_and_standardize` on the wide numeric fragment: standardize and
rename names, drop all-`NaN` columns, then apply the valid-range filter. -/
def clean_and_standardize (t : Frame) : Frame :=
  clean_range (clean_keep (clean_rename t))

/-- Forward fill (`fillna(method='ffill')`): each `NaN` takes the closest
preceding value, leading `NaN`s stay. -/
def ffillGo (carry : Option ℚ) : List (Option ℚ) → List (Option ℚ)
  | [] => []
  | x :: xs =>
    match x with
    | some v => some v :: ffillGo (some v) xs
    | none => carry :: ffillGo carry xs

/-- Forward fill of one column. -/
def ffill (col : List (Option ℚ)) : List (Option ℚ) :=
  ffillGo none col

/-- Backward fill (`fillna(method='bfill')`). -/
def bfill (col : List (Option ℚ)) : List (Option ℚ) :=
  (ffill col.reverse).reverse

/-- `_handle_missing_values` with the default `'interpolation'` strategy on
a frame without a `timestamp` column: forward/backward fill each column that
has missing values, then zero-fill whatever is still missing (the
`remaining_missing > 0` branch). -/
def missing_fill (t : Frame) : Frame :=
  t.map (fun c =>
    if c.2.any (fun x => x.isNone) then (c.1, bfill (ffill c.2)) else c)

def handle_missing_values (t : Frame) : Frame :=
  if (missing_fill t).any (fun c => c.2.any (fun x => x.isNone)) then
    (missing_fill t).map (fun c => (c.1, c.2.map (fun x => some (x.getD 0))))
  else missing_fill t

/-- One column of `_handle_outliers`: skipped with fewer than 10 non-null
values; otherwise cells are outliers when outside the IQR fences or equal to
a value whose z-score exceeds 3 (`isin(values[zscore_outliers])`); a column
whose outlier share of `len(df)` exceeds 10% is clipped at the 5th/95th
percentiles, otherwise the flagged cells are set to the median. -/
def handleOutliersColumn (rows : ℕ) (col : List (Option ℚ)) :
    List (Option ℚ) :=
  let values := col.filterMap id
  if values.length < 10 then col
  else
    let lb := iqrLowerBound values
    let ub := iqrUpperBound values
    let mask : Option ℚ → Bool := fun x =>
      match x with
      | some v => decide (v < lb) || decide (ub < v) || zscoreFlag values v
      | none => false
    let outlier_count := col.countP mask
    if outlier_count = 0 then col
    else if 1/10 < (outlier_count : ℚ) / (rows : ℚ) then
      let lower_cap := quantileVals values (1/20)
      let upper_cap := quantileVals values (19/20)
      col.map (Option.map (fun v => min (max v lower_cap) upper_cap))
    else
      col.map (fun x => if mask x then some (quantileVals values (1/2)) else x)

/-- `_handle_outliers` over the frame. -/
def handle_outliers (t : Frame) : Frame :=
  t.map (fun c => (c.1, handleOutliersColumn (nRows t) c.2))

/-- The inner `pm25_to_aqi` of `_calculate_aqi_pm25`: first EPA bracket
containing the value, linearly interpolated and rounded, `500` past (or
between) the brackets. -/
def pm25_to_aqi (pm25 : ℚ) : ℤ :=
  if 0 ≤ pm25 ∧ pm25 ≤ 12 then
    pyRound ((50 - 0) / (12 - 0) * (pm25 - 0) + 0)
  else if 121/10 ≤ pm25 ∧ pm25 ≤ 354/10 then
    pyRound ((100 - 51) / (354/10 - 121/10) * (pm25 - 121/10) + 51)
  else if 355/10 ≤ pm25 ∧ pm25 ≤ 554/10 then
    pyRound ((150 - 101) / (554/10 - 355/10) * (pm25 - 355/10) + 101)
  else if 555/10 ≤ pm25 ∧ pm25 ≤ 1504/10 then
    pyRound ((200 - 151) / (1504/10 - 555/10) * (pm25 - 555/10) + 151)
  else if 1505/10 ≤ pm25 ∧ pm25 ≤ 2504/10 then
    pyRound ((300 - 201) / (2504/10 - 1505/10) * (pm25 - 1505/10) + 201)
  else if 2505/10 ≤ pm25 ∧ pm25 ≤ 3504/10 then
    pyRound ((400 - 301) / (3504/10 - 2505/10) * (pm25 - 2505/10) + 301)
  else 500

/-- The inner `pm10_to_aqi` of `_calculate_aqi_pm10`. -/
def pm10_to_aqi (pm10 : ℚ) : ℤ :=
  if 0 ≤ pm10 ∧ pm10 ≤ 54 then
    pyRound ((50 - 0) / (54 - 0) * (pm10 - 0) + 0)
  else if 55 ≤ pm10 ∧ pm10 ≤ 154 then
    pyRound ((100 - 51) / (154 - 55) * (pm10 - 55) + 51)
  else if 155 ≤ pm10 ∧ pm10 ≤ 254 then
    pyRound ((150 - 101) / (254 - 155) * (pm10 - 155) + 101)
  else if 255 ≤ pm10 ∧ pm10 ≤ 354 then
    pyRound ((200 - 151) / (354 - 255) * (pm10 - 255) + 151)
  else if 355 ≤ pm10 ∧ pm10 ≤ 424 then
    pyRound ((300 - 201) / (424 - 355) * (pm10 - 355) + 201)
  else if 425 ≤ pm10 ∧ pm10 ≤ 504 then
    pyRound ((400 - 301) / (504 - 425) * (pm10 - 425) + 301)
  else 500

/-- `df[name] = col`: overwrite an existing column in place, else append. -/
def setColumn (t : Frame) (name : String) (col : List (Option ℚ)) : Frame :=
  if (t.lookup name).isSome then
    t.map (fun c => if c.1 = name then (name, col) else c)
  else t ++ [(name, col)]

/-- Cell-wise combination of two columns (`NaN` propagates). -/
def cellMap2 (f : ℚ → ℚ → ℚ) (a b : List (Option ℚ)) : List (Option ℚ) :=
  a.zipWith
    (fun x y =>
      match x, y with
      | some u, some v => some (f u v)
      | _, _ => none)
    b

/-- Column lookup returning the empty column when absent (guarded by the
presence checks below). -/
def getColumn (t : Frame) (name : String) : List (Option ℚ) :=
  (t.lookup name).getD []

/-- One derived-feature block of `_engineer_features`: when every input
column is present, assign the derived column (overwriting an existing column
of that name, else appending it). -/
def addDerived (inputs : List String) (name : String)
    (mk : Frame → List (Option ℚ)) (t : Frame) : Frame :=
  if inputs.all (fun i => (t.lookup i).isSome) then setColumn t name (mk t)
  else t

/-- The heat-index block of `_engineer_features`. -/
def engStage1 (t : Frame) : Frame :=
  addDerived ["temperature", "humidity"] "heat_index"
    (fun u => cellMap2 (fun temp h => temp + 33/100 * h - 7/10)
      (getColumn u "temperature") (getColumn u "humidity")) t

/-- The density-altitude block of `_engineer_features`. -/
def engStage2 (t : Frame) : Frame :=
  addDerived ["temperature", "pressure"] "density_altitude"
    (fun u => cellMap2 (fun temp p => temp - (p - 101325/100) / (36/10))
      (getColumn u "temperature") (getColumn u "pressure")) t

/-- The PM2.5 AQI block of `_engineer_features`. -/
def engStage3 (t : Frame) : Frame :=
  addDerived ["pm25"] "aqi_pm25"
    (fun u => (getColumn u "pm25").map
      (Option.map (fun v => (pm25_to_aqi v : ℚ)))) t

/-- The PM10 AQI block of `_engineer_features`. -/
def engStage4 (t : Frame) : Frame :=
  addDerived ["pm10"] "aqi_pm10"
    (fun u => (getColumn u "pm10").map
      (Option.map (fun v => (pm10_to_aqi v : ℚ)))) t

/-- The wave-energy block of `_engineer_features`. -/
def engStage5 (t : Frame) : Frame :=
  addDerived ["wave_height", "wind_speed"] "wave_energy"
    (fun u => cellMap2 (fun wh ws => wh ^ 2 * ws)
      (getColumn u "wave_height") (getColumn u "wind_speed")) t

/-- `_engineer_features` on the fragment (no `timestamp`, no
`wind_direction`): heat index, density-altitude proxy, AQI sub-indices and
wave-energy proxy, each only when its inputs are present, assigned in source
order. -/
def engineer_features (t : Frame) : Frame :=
  engStage5 (engStage4 (engStage3 (engStage2 (engStage1 t))))

/-- One column of `RobustScaler.fit_transform`: centre on the median, scale
by the interquartile range (quantiles ignore `NaN`), a zero range becoming 1
(`_handle_zeros_in_scale`). -/
def robustScaleColumn (col : List (Option ℚ)) : List (Option ℚ) :=
  let values := col.filterMap id
  let center := quantileVals values (1/2)
  let spread := quantileVals values (3/4) - quantileVals values (1/4)
  let scale := if spread = 0 then 1 else spread
  col.map (Option.map (fun v => (v - center) / scale))

/-- `_scale_features` with the default `robust_scaler` configuration. -/
def scale_features (t : Frame) : Frame :=
  t.map (fun c => (c.1, robustScaleColumn c.2))

/-- `prepare_features` (called with `target_variable=None`): cleaning,
missing-value handling, outlier handling, feature engineering and robust
scaling in sequence.  The empty-input guards return the empty frame, which
the composition reproduces. -/
def prepare_features (t : Frame) : Frame :=
  scale_features
    (engineer_features
      (handle_outliers (handle_missing_values (clean_and_standardize t))))

/-!
## Concrete inputs and auxiliary predicates used by the claim statements
-/

/-- Modelled from the spec: the per-horizon training pair the specification
describes for `_create_time_series_features` — for each requested horizon
`fh` the example loop runs up to `len(values) - fh` and the label is the
value exactly `fh` steps after the window end. -/
def specTrainingSet (sqrtQ : ℚ → ℚ) (values : List ℚ) (fh : ℕ) :
    List (List ℚ) × List ℚ :=
  let ws := tsWindowSize values
  let idxs := List.range' ws (values.length - fh - ws)
  (idxs.map (fun i => tsFeatureVector sqrtQ (tsWindow values ws i)),
   idxs.map (fun i => values.getD (i + fh) 0))

/-- Twelve hourly readings, enough for a window of 4. -/
def c1Values : List ℚ := [0, 1, 2, 3, 4, 5, 6, 7, 8, 9, 10, 11]

/-- Witness input for C3: a single-reading storm table with calm wind. -/
def c3Input : List (String × List ℚ) := [("wind_speed", [0]), ("pressure", [1013])]

/-- The classifier result on `c3Input`. -/
def c3Result : ThreatDetectionResult :=
  { threat_type := "storm", confidence := 0, severity := 1, detected := false,
    features_used := ["wind_speed", "pressure"] }

/-- Counterexample input for C4: one in-range pressure column. -/
def c4Input : Frame := [("pressure", [some 1000, some 1010, some 1020])]

/-- Input of the storm rule-fallback scenario: a single reading with
`wind_speed = 130` and `pressure = 970`. -/
def c6Input : List (String × List ℚ) := [("wind_speed", [130]), ("pressure", [970])]

/-- The column-name list of a frame (`df.columns`). -/
def colNames (t : Frame) : List String :=
  t.map Prod.fst

/-- A column with at least one cell and no missing cell; every column
`prepare_features` emits is of this shape. -/
def goodCol (c : String × List (Option ℚ)) : Prop :=
  c.2 ≠ [] ∧ ∀ x ∈ c.2, x.isSome = true

/-- A frame already closed under the five derived-feature blocks of
`_engineer_features`: whenever a block's input columns are all present, the
derived column is present too. -/
def engineeredClosed (t : Frame) : Prop :=
  ("temperature" ∈ colNames t → "humidity" ∈ colNames t →
    "heat_index" ∈ colNames t) ∧
  ("temperature" ∈ colNames t → "pressure" ∈ colNames t →
    "density_altitude" ∈ colNames t) ∧
  ("pm25" ∈ colNames t → "aqi_pm25" ∈ colNames t) ∧
  ("pm10" ∈ colNames t → "aqi_pm10" ∈ colNames t) ∧
  ("wave_height" ∈ colNames t → "wind_speed" ∈ colNames t →
    "wave_energy" ∈ colNames t)

/-!
## General lemmas about the helper functions
-/

theorem pyRound_lower (q : ℚ) : ⌊q⌋ ≤ pyRound q := by
  unfold pyRound
  split_ifs <;> omega

theorem pyRound_nonneg (q : ℚ) (h : 0 ≤ q) : 0 ≤ pyRound q := by
  have h0 : (0 : ℤ) ≤ ⌊q⌋ := by positivity
  exact le_trans h0 (pyRound_lower q)

theorem pyRound_le_int (q : ℚ) (m : ℤ) (h : q ≤ m) : pyRound q ≤ m := by
  have hf : ⌊q⌋ ≤ m := by
    have := Int.floor_le_floor h
    simpa using this
  have hplus : ¬(q - ⌊q⌋ < 1/2) → ⌊q⌋ + 1 ≤ m := by
    intro hr
    push_neg at hr
    have h1 : (⌊q⌋ : ℚ) + 1/2 ≤ q := by linarith
    have h2 : (⌊q⌋ : ℚ) < m := by
      have hm : (⌊q⌋ : ℚ) + 1/2 ≤ (m : ℚ) := le_trans h1 h
      linarith
    exact_mod_cast Int.add_one_le_of_lt (by exact_mod_cast h2)
  unfold pyRound
  split_ifs with h1 h2 h3
  · exact hf
  · exact hplus (by linarith)
  · exact hf
  · exact hplus h1

theorem pyRound4_nonneg (q : ℚ) (h : 0 ≤ q) : 0 ≤ pyRound4 q := by
  unfold pyRound4
  have := pyRound_nonneg (q * 10000) (by positivity)
  positivity

theorem pyRound4_le_one (q : ℚ) (h : q ≤ 1) : pyRound4 q ≤ 1 := by
  unfold pyRound4
  have h1 : q * 10000 ≤ ((10000 : ℤ) : ℚ) := by push_cast; linarith
  have h2 := pyRound_le_int (q * 10000) 10000 h1
  rw [div_le_one (by norm_num : (0:ℚ) < 10000)]
  exact_mod_cast h2

theorem lmean_nonneg (l : List ℚ) (h : ∀ x ∈ l, 0 ≤ x) : 0 ≤ lmean l := by
  unfold lmean
  have hs : 0 ≤ l.sum := List.sum_nonneg h
  positivity

theorem lmean_le (l : List ℚ) (b : ℚ) (hb : 0 ≤ b) (h : ∀ x ∈ l, x ≤ b) :
    lmean l ≤ b := by
  unfold lmean
  rcases Nat.eq_zero_or_pos l.length with h0 | h0
  · simp [h0]; positivity
  · have hs : l.sum ≤ l.length • b := List.sum_le_card_nsmul l b h
    rw [nsmul_eq_mul] at hs
    rw [div_le_iff₀ (by exact_mod_cast h0)]
    linarith

theorem foldl_max_mem (xs : List ℚ) (a : ℚ) : xs.foldl max a ∈ a :: xs := by
  induction xs generalizing a with
  | nil => simp
  | cons y ys ih =>
    have h := ih (max a y)
    rw [List.foldl_cons]
    rcases List.mem_cons.mp h with h1 | h1
    · rw [h1]
      rcases max_choice a y with h2 | h2 <;> rw [h2] <;> simp
    · exact List.mem_cons_of_mem _ (List.mem_cons_of_mem _ h1)

theorem foldl_min_mem (xs : List ℚ) (a : ℚ) : xs.foldl min a ∈ a :: xs := by
  induction xs generalizing a with
  | nil => simp
  | cons y ys ih =>
    have h := ih (min a y)
    rw [List.foldl_cons]
    rcases List.mem_cons.mp h with h1 | h1
    · rw [h1]
      rcases min_choice a y with h2 | h2 <;> rw [h2] <;> simp
    · exact List.mem_cons_of_mem _ (List.mem_cons_of_mem _ h1)

theorem lmax_mem (l : List ℚ) (h : l ≠ []) : lmax l ∈ l := by
  match l with
  | x :: xs => exact foldl_max_mem xs x

theorem le_foldl_max (xs : List ℚ) (a : ℚ) : a ≤ xs.foldl max a := by
  induction xs generalizing a with
  | nil => simp
  | cons y ys ih => exact le_trans (le_max_left a y) (ih (max a y))

theorem mem_le_foldl_max (xs : List ℚ) (a x : ℚ) (h : x ∈ xs) :
    x ≤ xs.foldl max a := by
  induction xs generalizing a with
  | nil => simp at h
  | cons y ys ih =>
    rw [List.foldl_cons]
    rcases List.mem_cons.mp h with h1 | h1
    · subst h1
      exact le_trans (le_max_right a x) (le_foldl_max ys (max a x))
    · exact ih (max a y) h1

theorem mem_le_lmax (l : List ℚ) (x : ℚ) (h : x ∈ l) : x ≤ lmax l := by
  match l with
  | y :: ys =>
    unfold lmax
    rcases List.mem_cons.mp h with h1 | h1
    · subst h1; exact le_foldl_max ys x
    · exact mem_le_foldl_max ys y x h1

theorem floor_nat_div_four (m : ℕ) : (⌊(m : ℚ) / 4⌋ : ℤ) = (m / 4 : ℕ) := by
  rw [Int.floor_eq_iff]
  constructor
  · rw [le_div_iff₀ (by norm_num : (0:ℚ) < 4)]
    exact_mod_cast Nat.cast_le.mpr (Nat.div_mul_le_self m 4)
  · rw [div_lt_iff₀ (by norm_num : (0:ℚ) < 4)]
    have h : m < (m / 4 + 1) * 4 := by omega
    push_cast
    exact_mod_cast Nat.cast_lt.mpr h

theorem countP_or_le {α : Type} (p q : α → Bool) (l : List α) :
    l.countP (fun x => p x || q x) ≤ l.countP p + l.countP q := by
  induction l with
  | nil => simp
  | cons a l ih =>
    rw [List.countP_cons, List.countP_cons, List.countP_cons]
    rcases hp : p a <;> rcases hq : q a <;> simp [hp, hq] <;> omega

theorem countP_markov (L : List ℚ) (B : ℚ) (hB : 0 ≤ B)
    (hL : ∀ d ∈ L, 0 ≤ d) :
    (L.countP (fun d => decide (B < d)) : ℚ) * B ≤ L.sum := by
  induction L with
  | nil => simp
  | cons d L ih =>
    have hd : 0 ≤ d := hL d (List.mem_cons_self d L)
    have ih2 := ih (fun x hx => hL x (List.mem_cons_of_mem d hx))
    rw [List.countP_cons, List.sum_cons]
    by_cases hBd : B < d
    · simp only [hBd, decide_eq_true_eq, if_pos]
      push_cast
      nlinarith
    · have he : decide (B < d) = false := decide_eq_false hBd
      simp only [he, Bool.false_eq_true, if_false, add_zero]
      nlinarith

/-!
## Order statistics of the linear-interpolation quantile
-/

theorem sortedVals_sorted (l : List ℚ) : (sortedVals l).Sorted (· ≤ ·) :=
  List.sorted_insertionSort _ l

theorem sortedVals_perm (l : List ℚ) : (sortedVals l).Perm l :=
  List.perm_insertionSort _ l

theorem sorted_getD_mono (s : List ℚ) (hs : s.Sorted (· ≤ ·)) {i j : ℕ}
    (hij : i ≤ j) (hj : j < s.length) : s.getD i 0 ≤ s.getD j 0 := by
  have hi : i < s.length := lt_of_le_of_lt hij hj
  rw [List.getD_eq_getElem s 0 hi, List.getD_eq_getElem s 0 hj]
  rcases eq_or_lt_of_le hij with h | h
  · subst h; exact le_refl _
  · exact hs.rel_get_of_lt (by exact_mod_cast h)

theorem getD_succ_ge (s : List ℚ) (hs : s.Sorted (· ≤ ·)) (k : ℕ)
    (hk : k < s.length) : s.getD k 0 ≤ s.getD (k + 1) (s.getD k 0) := by
  by_cases h : k + 1 < s.length
  · rw [List.getD_eq_getElem s _ h]
    rw [List.getD_eq_getElem s 0 hk]
    exact hs.rel_get_of_lt (by exact_mod_cast Nat.lt_succ_self k)
  · have h2 : s.getD (k + 1) (s.getD k 0) = s.getD k 0 :=
      List.getD_eq_default s (s.getD k 0) (by omega)
    rw [h2]

theorem countP_lt_le (s : List ℚ) (hs : s.Sorted (· ≤ ·)) (k : ℕ)
    (hk : k < s.length) (Q : ℚ) (hQ : Q ≤ s.getD k 0) :
    s.countP (fun x => decide (x < Q)) ≤ k := by
  have hsplit : s.countP (fun x => decide (x < Q)) =
      (s.take k).countP (fun x => decide (x < Q)) +
        (s.drop k).countP (fun x => decide (x < Q)) := by
    rw [← List.countP_append, List.take_append_drop]
  rw [hsplit]
  have h1 : (s.take k).countP (fun x => decide (x < Q)) ≤ k :=
    le_trans (List.countP_le_length _)
      (by rw [List.length_take]; exact min_le_left _ _)
  have h2 : (s.drop k).countP (fun x => decide (x < Q)) = 0 := by
    rw [List.countP_eq_zero]
    intro a ha
    have hka : s.getD k 0 ≤ a := by
      rw [List.getD_eq_getElem s 0 hk]
      rw [List.drop_eq_getElem_cons hk] at ha
      rcases List.mem_cons.mp ha with h | h
      · rw [h]
      · have hmem : s[k] ∈ s.take (k + 1) := by
          have hlt : k < (s.take (k + 1)).length := by
            rw [List.length_take]; omega
          have := List.getElem_mem hlt
          rwa [List.getElem_take] at this
        exact hs.rel_of_mem_take_of_mem_drop hmem h
    simp only [decide_eq_true_eq]
    exact not_lt.mpr (le_trans hQ hka)
  omega

theorem countP_gt_le (s : List ℚ) (hs : s.Sorted (· ≤ ·)) (k : ℕ)
    (hk : k < s.length) (Q : ℚ) (hQ : s.getD k 0 ≤ Q) :
    s.countP (fun x => decide (Q < x)) ≤ s.length - k - 1 := by
  have hsplit : s.countP (fun x => decide (Q < x)) =
      (s.take (k + 1)).countP (fun x => decide (Q < x)) +
        (s.drop (k + 1)).countP (fun x => decide (Q < x)) := by
    rw [← List.countP_append, List.take_append_drop]
  rw [hsplit]
  have h1 : (s.take (k + 1)).countP (fun x => decide (Q < x)) = 0 := by
    rw [List.countP_eq_zero]
    intro a ha
    have hak : a ≤ s.getD k 0 := by
      rw [List.getD_eq_getElem s 0 hk]
      rw [List.take_succ] at ha
      rcases List.mem_append.mp ha with h | h
      · have hmem : s[k] ∈ s.drop k := by
          rw [List.drop_eq_getElem_cons hk]
          exact List.mem_cons_self _ _
        exact hs.rel_of_mem_take_of_mem_drop h hmem
      · have : s[k]? = some s[k] := List.getElem?_eq_getElem hk
        rw [this] at h
        simp only [Option.toList_some, List.mem_singleton] at h
        rw [h]
    simp only [decide_eq_true_eq]
    exact not_lt.mpr (le_trans hak hQ)
  have h2 : (s.drop (k + 1)).countP (fun x => decide (Q < x)) ≤
      s.length - k - 1 := by
    refine le_trans (List.countP_le_length _) ?_
    rw [List.length_drop]
    omega
  omega

theorem quantileSorted_bounds (s : List ℚ) (hs : s.Sorted (· ≤ ·))
    (hne : s ≠ []) (q : ℚ) (h0 : 0 ≤ q) (h1 : q ≤ 1) :
    s.getD (⌊q * ((s.length : ℚ) - 1)⌋.toNat) 0 ≤ quantileSorted s q ∧
      quantileSorted s q ≤
        s.getD (⌊q * ((s.length : ℚ) - 1)⌋.toNat + 1)
          (s.getD (⌊q * ((s.length : ℚ) - 1)⌋.toNat) 0) := by
  have hn : 1 ≤ s.length := List.length_pos.mpr hne
  set n := s.length with hn_def
  set pos : ℚ := q * ((n : ℚ) - 1) with hpos_def
  have hpos0 : 0 ≤ pos := by
    apply mul_nonneg h0
    have : (1 : ℚ) ≤ (n : ℚ) := by exact_mod_cast hn
    linarith
  have hposn : pos ≤ (n : ℚ) - 1 := by
    have h2 : (0 : ℚ) ≤ (n : ℚ) - 1 := by
      have : (1 : ℚ) ≤ (n : ℚ) := by exact_mod_cast hn
      linarith
    nlinarith
  set fn : ℕ := (⌊pos⌋).toNat with hfn_def
  have hfcast : (fn : ℚ) = (⌊pos⌋ : ℚ) := by
    have : (0 : ℤ) ≤ ⌊pos⌋ := by positivity
    rw [hfn_def]
    exact_mod_cast Int.toNat_of_nonneg this
  have hfle : (fn : ℚ) ≤ pos := by rw [hfcast]; exact Int.floor_le pos
  have hflt : pos < (fn : ℚ) + 1 := by rw [hfcast]; exact Int.lt_floor_add_one pos
  have hfn_lt : fn < n := by
    have h2 : (fn : ℚ) ≤ (n : ℚ) - 1 := le_trans hfle hposn
    have h3 : (fn : ℚ) < (n : ℚ) := by linarith
    exact_mod_cast h3
  have hadj : s.getD fn 0 ≤ s.getD (fn + 1) (s.getD fn 0) :=
    getD_succ_ge s hs fn hfn_lt
  constructor
  · show s.getD fn 0 ≤ s.getD fn 0 + (pos - (fn : ℚ)) * (s.getD (fn + 1) (s.getD fn 0) - s.getD fn 0)
    nlinarith
  · show s.getD fn 0 + (pos - (fn : ℚ)) * (s.getD (fn + 1) (s.getD fn 0) - s.getD fn 0) ≤ s.getD (fn + 1) (s.getD fn 0)
    nlinarith

theorem quantileSorted_mono (s : List ℚ) (hs : s.Sorted (· ≤ ·))
    (hne : s ≠ []) {q1 q2 : ℚ} (h0 : 0 ≤ q1) (h12 : q1 ≤ q2) (h2 : q2 ≤ 1) :
    quantileSorted s q1 ≤ quantileSorted s q2 := by
  have hn : 1 ≤ s.length := List.length_pos.mpr hne
  have hn1 : (0 : ℚ) ≤ (s.length : ℚ) - 1 := by
    have : (1 : ℚ) ≤ (s.length : ℚ) := by exact_mod_cast hn
    linarith
  set pos1 : ℚ := q1 * ((s.length : ℚ) - 1) with hp1
  set pos2 : ℚ := q2 * ((s.length : ℚ) - 1) with hp2
  have hposle : pos1 ≤ pos2 := by
    apply mul_le_mul_of_nonneg_right h12 hn1
  have hpos10 : 0 ≤ pos1 := mul_nonneg h0 hn1
  have hpos2n : pos2 ≤ (s.length : ℚ) - 1 := by nlinarith
  set f1 : ℕ := (⌊pos1⌋).toNat with hf1
  set f2 : ℕ := (⌊pos2⌋).toNat with hf2
  have hff : f1 ≤ f2 := by
    have h3 : ⌊pos1⌋ ≤ ⌊pos2⌋ := Int.floor_le_floor hposle
    rw [hf1, hf2]
    omega
  have hf1cast : (f1 : ℚ) = (⌊pos1⌋ : ℚ) := by
    have : (0 : ℤ) ≤ ⌊pos1⌋ := by positivity
    rw [hf1]; exact_mod_cast Int.toNat_of_nonneg this
  have hf2cast : (f2 : ℚ) = (⌊pos2⌋ : ℚ) := by
    have h4 : (0 : ℤ) ≤ ⌊pos2⌋ := le_trans (by positivity) (Int.floor_le_floor hposle)
    rw [hf2]; exact_mod_cast Int.toNat_of_nonneg h4
  have hf2_lt : f2 < s.length := by
    have h5 : (f2 : ℚ) ≤ pos2 := by rw [hf2cast]; exact Int.floor_le pos2
    have h6 : (f2 : ℚ) < (s.length : ℚ) := by linarith
    exact_mod_cast h6
  rcases eq_or_lt_of_le hff with heq | hlt
  · -- same interpolation cell
    have hf1_lt : f1 < s.length := heq ▸ hf2_lt
    have hadj : s.getD f1 0 ≤ s.getD (f1 + 1) (s.getD f1 0) :=
      getD_succ_ge s hs f1 hf1_lt
    show s.getD f1 0 + (pos1 - (f1 : ℚ)) * (s.getD (f1 + 1) (s.getD f1 0) - s.getD f1 0) ≤
      s.getD f2 0 + (pos2 - (f2 : ℚ)) * (s.getD (f2 + 1) (s.getD f2 0) - s.getD f2 0)
    rw [← heq]
    nlinarith
  · -- crossing at least one cell boundary
    have hb1 := quantileSorted_bounds s hs hne q1 h0 (le_trans h12 h2)
    have hb2 := quantileSorted_bounds s hs hne q2 (le_trans h0 h12) h2
    have hstep : s.getD (f1 + 1) (s.getD f1 0) ≤ s.getD f2 0 := by
      have hf1s : f1 + 1 < s.length ∨ f1 + 1 = f2 ∧ f2 < s.length := by
        left; omega
      have hin : f1 + 1 < s.length := by omega
      rw [List.getD_eq_getElem s _ hin, ← List.getD_eq_getElem s 0 hin]
      exact sorted_getD_mono s hs (by omega) hf2_lt
    calc quantileSorted s q1 ≤ s.getD (f1 + 1) (s.getD f1 0) := hb1.2
      _ ≤ s.getD f2 0 := hstep
      _ ≤ quantileSorted s q2 := hb2.1

/-!
## Bounding the statistical anomaly count

The centrepiece of the range-invariant claim: in any column, at most a
`10/13` fraction of points can be flagged by the combined z-score/IQR test,
so the importance weights (at most `1.3`) can never push a weighted score
above `1`.
-/

theorem zscore_count_le (l : List ℚ) :
    9 * l.countP (zscoreFlag l) ≤ l.length := by
  set μ := lmean l with hμ
  set t := (l.map (fun y => (y - μ) ^ 2)).sum with ht
  have htnonneg : 0 ≤ t := by
    apply List.sum_nonneg
    intro z hz
    obtain ⟨y, _, rfl⟩ := List.mem_map.mp hz
    positivity
  have hflag : ∀ x, zscoreFlag l x =
      decide ((l.length : ℚ) * (x - μ) ^ 2 > 9 * t) := fun x => rfl
  rcases eq_or_lt_of_le htnonneg with ht0 | htpos
  · -- zero total deviation: no z-score flags at all
    have hzero : ∀ x ∈ l, (x - μ) ^ 2 = 0 := by
      intro x hx
      have h1 : ∀ z ∈ l.map (fun y => (y - μ) ^ 2), (0:ℚ) ≤ z := by
        intro z hz
        obtain ⟨y, _, rfl⟩ := List.mem_map.mp hz
        positivity
      have h2 : (x - μ) ^ 2 ∈ l.map (fun y => (y - μ) ^ 2) :=
        List.mem_map_of_mem _ hx
      have h3 := List.single_le_sum h1 _ h2
      nlinarith [sq_nonneg (x - μ)]
    have hc : l.countP (zscoreFlag l) = 0 := by
      rw [List.countP_eq_zero]
      intro x hx
      rw [hflag x]
      simp only [decide_eq_true_eq, not_lt]
      rw [hzero x hx]
      nlinarith
    omega
  · -- positive total deviation: Markov/Chebyshev counting
    have hne : l ≠ [] := by
      intro h
      subst h
      simp only [List.map_nil, List.sum_nil] at ht
      rw [ht] at htpos
      exact lt_irrefl _ htpos
    have hlenpos : 0 < l.length := List.length_pos.mpr hne
    have hn0 : (0:ℚ) < (l.length : ℚ) := by exact_mod_cast hlenpos
    set B : ℚ := 9 * t / l.length with hB_def
    have hB : 0 ≤ B := by positivity
    have hmap : l.countP (zscoreFlag l) =
        (l.map (fun y => (y - μ) ^ 2)).countP (fun d => decide (B < d)) := by
      rw [List.countP_map]
      apply List.countP_congr
      intro x hx
      simp only [Function.comp, hflag x, decide_eq_true_eq, gt_iff_lt]
      rw [hB_def, div_lt_iff₀ hn0]
      constructor
      · intro h; linarith
      · intro h; linarith
    have hnonneg : ∀ d ∈ l.map (fun y => (y - μ) ^ 2), (0:ℚ) ≤ d := by
      intro d hd
      obtain ⟨y, _, rfl⟩ := List.mem_map.mp hd
      positivity
    have hmarkov := countP_markov (l.map (fun y => (y - μ) ^ 2)) B hB hnonneg
    rw [← hmap] at hmarkov
    have hsum : (l.map (fun y => (y - μ) ^ 2)).sum = t := ht.symm
    rw [hsum] at hmarkov
    -- clear the denominator and cancel t
    have h2 : (l.countP (zscoreFlag l) : ℚ) * (9 * t) ≤ t * (l.length : ℚ) := by
      have h3 := mul_le_mul_of_nonneg_right hmarkov (le_of_lt hn0)
      rw [hB_def, mul_assoc, div_mul_cancel₀ _ (ne_of_gt hn0)] at h3
      linarith
    have h4 : t * (9 * (l.countP (zscoreFlag l) : ℚ)) ≤ t * (l.length : ℚ) := by
      nlinarith
    have hfin : 9 * (l.countP (zscoreFlag l) : ℚ) ≤ (l.length : ℚ) :=
      le_of_mul_le_mul_left h4 htpos
    exact_mod_cast hfin

theorem quantile_floor_lt_length (s : List ℚ) (hne : s ≠ []) (q : ℚ)
    (h0 : 0 ≤ q) (h1 : q ≤ 1) :
    (⌊q * ((s.length : ℚ) - 1)⌋).toNat < s.length := by
  have hn : 1 ≤ s.length := List.length_pos.mpr hne
  have hn1 : (0 : ℚ) ≤ (s.length : ℚ) - 1 := by
    have : (1 : ℚ) ≤ (s.length : ℚ) := by exact_mod_cast hn
    linarith
  have hle : q * ((s.length : ℚ) - 1) ≤ (s.length : ℚ) - 1 := by nlinarith
  have h2 : (⌊q * ((s.length : ℚ) - 1)⌋ : ℚ) ≤ (s.length : ℚ) - 1 :=
    le_trans (Int.floor_le _) hle
  have h3 : (⌊q * ((s.length : ℚ) - 1)⌋ : ℚ) < (s.length : ℚ) := by linarith
  have h4 : ⌊q * ((s.length : ℚ) - 1)⌋ < (s.length : ℤ) := by exact_mod_cast h3
  omega

theorem countP_lt_quantile_le_succ (s : List ℚ) (hs : s.Sorted (· ≤ ·))
    (hne : s ≠ []) (q : ℚ) (h0 : 0 ≤ q) (h1 : q ≤ 1) :
    s.countP (fun x => decide (x < quantileSorted s q)) ≤
      (⌊q * ((s.length : ℚ) - 1)⌋).toNat + 1 := by
  set fn := (⌊q * ((s.length : ℚ) - 1)⌋).toNat with hfn
  by_cases h : fn + 1 < s.length
  · have hb := (quantileSorted_bounds s hs hne q h0 h1).2
    rw [← hfn] at hb
    have he : s.getD (fn + 1) (s.getD fn 0) = s.getD (fn + 1) 0 := by
      rw [List.getD_eq_getElem s _ h, List.getD_eq_getElem s 0 h]
    rw [he] at hb
    exact le_trans (countP_lt_le s hs (fn + 1) h _ hb) (le_refl _)
  · exact le_trans (List.countP_le_length _) (by omega)

theorem countP_lt_quantile_le_floor (s : List ℚ) (hs : s.Sorted (· ≤ ·))
    (hne : s ≠ []) (q : ℚ) (h0 : 0 ≤ q) (h1 : q ≤ 1)
    (hint : (((⌊q * ((s.length : ℚ) - 1)⌋).toNat : ℕ) : ℚ) =
      q * ((s.length : ℚ) - 1)) :
    s.countP (fun x => decide (x < quantileSorted s q)) ≤
      (⌊q * ((s.length : ℚ) - 1)⌋).toNat := by
  set fn := (⌊q * ((s.length : ℚ) - 1)⌋).toNat with hfn
  have hflt : fn < s.length := quantile_floor_lt_length s hne q h0 h1
  have hQ : quantileSorted s q = s.getD fn 0 := by
    show s.getD fn 0 +
        (q * ((s.length : ℚ) - 1) - (fn : ℚ)) *
          (s.getD (fn + 1) (s.getD fn 0) - s.getD fn 0) = s.getD fn 0
    rw [← hint]
    ring
  exact countP_lt_le s hs fn hflt _ (le_of_eq hQ)

theorem countP_gt_quantile_le (s : List ℚ) (hs : s.Sorted (· ≤ ·))
    (hne : s ≠ []) (q : ℚ) (h0 : 0 ≤ q) (h1 : q ≤ 1) :
    s.countP (fun x => decide (quantileSorted s q < x)) ≤
      s.length - (⌊q * ((s.length : ℚ) - 1)⌋).toNat - 1 := by
  set fn := (⌊q * ((s.length : ℚ) - 1)⌋).toNat with hfn
  have hflt : fn < s.length := quantile_floor_lt_length s hne q h0 h1
  have hb := (quantileSorted_bounds s hs hne q h0 h1).1
  rw [← hfn] at hb
  exact countP_gt_le s hs fn hflt _ hb

theorem fences_len_two (l : List ℚ) (hlen : l.length = 2) :
    (sortedVals l).countP (fun x => decide (x < iqrLowerBound l)) = 0 ∧
      (sortedVals l).countP (fun x => decide (iqrUpperBound l < x)) = 0 := by
  have hslen : (sortedVals l).length = 2 := by
    rw [(sortedVals_perm l).length_eq, hlen]
  have hsort := sortedVals_sorted l
  rcases hseq : sortedVals l with _ | ⟨a, tl⟩
  · rw [hseq] at hslen; simp at hslen
  rcases tl with _ | ⟨b, tl2⟩
  · rw [hseq] at hslen; simp at hslen
  rcases tl2 with _ | ⟨c, tl3⟩
  swap
  · rw [hseq] at hslen; simp at hslen
  rw [hseq] at hsort
  have hab : a ≤ b := List.rel_of_sorted_cons hsort b (by simp)
  have hq1 : quantileVals l (1/4) = a + 1/4 * (b - a) := by
    unfold quantileVals
    rw [hseq]
    unfold quantileSorted
    norm_num
  have hq3 : quantileVals l (3/4) = a + 3/4 * (b - a) := by
    unfold quantileVals
    rw [hseq]
    unfold quantileSorted
    norm_num
  have hlb : iqrLowerBound l = a - 1/2 * (b - a) := by
    unfold iqrLowerBound
    rw [hq1, hq3]
    ring
  have hub : iqrUpperBound l = b + 1/2 * (b - a) := by
    unfold iqrUpperBound
    rw [hq1, hq3]
    ring
  constructor
  · rw [List.countP_eq_zero]
    intro x hx
    simp only [decide_eq_true_eq, not_lt, hlb]
    rcases List.mem_cons.mp hx with h | h
    · rw [h]; linarith
    · simp only [List.mem_singleton] at h
      rw [h]; linarith
  · rw [List.countP_eq_zero]
    intro x hx
    simp only [decide_eq_true_eq, not_lt, hub]
    rcases List.mem_cons.mp hx with h | h
    · rw [h]; linarith
    · simp only [List.mem_singleton] at h
      rw [h]; linarith

/-- No more than a `10/13` share of a column's points can be flagged by
`_statistical_anomaly_detection`'s combined z-score and IQR tests. -/
theorem anomaly_count_bound (l : List ℚ) :
    13 * anomalyCount l ≤ 10 * l.length := by
  rcases eq_or_ne l [] with rfl | hne
  · simp [anomalyCount]
  have hsort := sortedVals_sorted l
  have hperm := sortedVals_perm l
  have hlen : (sortedVals l).length = l.length := hperm.length_eq
  have hn : 1 ≤ l.length := List.length_pos.mpr hne
  have hsne : sortedVals l ≠ [] := by
    intro h
    rw [h] at hlen
    simp at hlen
    omega
  -- transfer the count to the sorted list and split the disjunction
  have hcn : anomalyCount l = (sortedVals l).countP (statFlag l) :=
    (hperm.countP_eq _).symm
  have hsplit : (sortedVals l).countP (statFlag l) ≤
      (sortedVals l).countP (zscoreFlag l) +
        ((sortedVals l).countP (fun x => decide (x < iqrLowerBound l)) +
          (sortedVals l).countP (fun x => decide (iqrUpperBound l < x))) := by
    have h1 := countP_or_le
      (fun x => zscoreFlag l x || decide (x < iqrLowerBound l))
      (fun x => decide (iqrUpperBound l < x)) (sortedVals l)
    have h2 := countP_or_le (zscoreFlag l)
      (fun x => decide (x < iqrLowerBound l)) (sortedVals l)
    have he : (sortedVals l).countP (statFlag l) =
        (sortedVals l).countP
          (fun x => (zscoreFlag l x || decide (x < iqrLowerBound l)) ||
            decide (iqrUpperBound l < x)) := rfl
    omega
  -- z-score share
  have hz : 9 * (sortedVals l).countP (zscoreFlag l) ≤ l.length := by
    rw [hperm.countP_eq]
    exact zscore_count_le l
  by_cases h2 : l.length = 2
  · -- two points can never fall outside the fences
    have hf := fences_len_two l h2
    omega
  -- the general counting argument
  have hq13 : quantileVals l (1/4) ≤ quantileVals l (3/4) :=
    quantileSorted_mono (sortedVals l) hsort hsne (by norm_num) (by norm_num)
      (by norm_num)
  have hlbq : iqrLowerBound l ≤ quantileVals l (1/4) := by
    unfold iqrLowerBound
    linarith
  have hubq : quantileVals l (3/4) ≤ iqrUpperBound l := by
    unfold iqrUpperBound
    linarith
  have hcb : (sortedVals l).countP (fun x => decide (x < iqrLowerBound l)) ≤
      (sortedVals l).countP (fun x => decide (x < quantileVals l (1/4))) := by
    apply List.countP_mono_left
    intro x _ hx
    simp only [decide_eq_true_eq] at hx ⊢
    linarith
  have hca : (sortedVals l).countP (fun x => decide (iqrUpperBound l < x)) ≤
      (sortedVals l).countP (fun x => decide (quantileVals l (3/4) < x)) := by
    apply List.countP_mono_left
    intro x _ hx
    simp only [decide_eq_true_eq] at hx ⊢
    linarith
  -- identify the interpolation cells
  set m := l.length - 1 with hm_def
  have hmcast : ((sortedVals l).length : ℚ) - 1 = (m : ℚ) := by
    rw [hlen]
    have : l.length = m + 1 := by omega
    rw [this]
    push_cast
    ring
  have hf1 : (⌊(1/4 : ℚ) * (((sortedVals l).length : ℚ) - 1)⌋).toNat = m / 4 := by
    rw [hmcast, show (1/4 : ℚ) * (m : ℚ) = (m : ℚ) / 4 by ring,
      floor_nat_div_four m]
    exact Int.toNat_natCast _
  have hf3 : (⌊(3/4 : ℚ) * (((sortedVals l).length : ℚ) - 1)⌋).toNat =
      3 * m / 4 := by
    rw [hmcast, show (3/4 : ℚ) * (m : ℚ) = ((3 * m : ℕ) : ℚ) / 4 by
      push_cast; ring, floor_nat_div_four (3 * m)]
    exact Int.toNat_natCast _
  -- upper-fence count
  have hcq3 : (sortedVals l).countP
      (fun x => decide (quantileVals l (3/4) < x)) ≤
        l.length - 3 * m / 4 - 1 := by
    have := countP_gt_quantile_le (sortedVals l) hsort hsne (3/4)
      (by norm_num) (by norm_num)
    rw [hf3, hlen] at this
    exact this
  -- lower-fence count, with the exact-position case handled separately
  have hcq1 : ((sortedVals l).countP
      (fun x => decide (x < quantileVals l (1/4)))) * 4 ≤ m + 3 := by
    by_cases hdiv : m % 4 = 0
    · have hint : (((⌊(1/4 : ℚ) *
          (((sortedVals l).length : ℚ) - 1)⌋).toNat : ℕ) : ℚ) =
          (1/4 : ℚ) * (((sortedVals l).length : ℚ) - 1) := by
        rw [hf1, hmcast]
        have hm4 : m = 4 * (m / 4) := by omega
        have h4 : (m : ℚ) = ((4 * (m / 4) : ℕ) : ℚ) := by exact_mod_cast hm4
        rw [h4]
        push_cast
        ring
      have hc := countP_lt_quantile_le_floor (sortedVals l) hsort hsne (1/4)
        (by norm_num) (by norm_num) hint
      rw [hf1] at hc
      have hc2 : (sortedVals l).countP
          (fun x => decide (x < quantileVals l (1/4))) ≤ m / 4 := hc
      omega
    · have hc := countP_lt_quantile_le_succ (sortedVals l) hsort hsne (1/4)
        (by norm_num) (by norm_num)
      rw [hf1] at hc
      have hc2 : (sortedVals l).countP
          (fun x => decide (x < quantileVals l (1/4))) ≤ m / 4 + 1 := hc
      omega
  -- assemble
  have hmn : l.length = m + 1 := by omega
  omega

theorem lookup_val_mem {β : Type} {l : List (String × β)} {c : String}
    {v : β} (h : l.lookup c = some v) : ∃ p ∈ l, p.2 = v := by
  induction l with
  | nil => simp [List.lookup] at h
  | cons p rest ih =>
    rcases p with ⟨k, b⟩
    cases hck : c == k
    · simp only [List.lookup, hck] at h
      obtain ⟨q, hq, hv⟩ := ih h
      exact ⟨q, List.mem_cons_of_mem _ hq, hv⟩
    · simp only [List.lookup, hck, Option.some_inj] at h
      exact ⟨(k, b), List.mem_cons_self _ _, h⟩

theorem parameter_weights_pos (c : String) : 0 < parameter_weights c := by
  unfold parameter_weights
  cases hl : parameter_weights_table.lookup c with
  | none => norm_num
  | some v =>
    obtain ⟨p, hp, hv⟩ := lookup_val_mem hl
    have htab : ∀ p ∈ parameter_weights_table, 0 < p.2 ∧ p.2 ≤ 13/10 := by
      intro q hq
      fin_cases hq <;> norm_num
    rw [Option.getD_some, ← hv]
    exact (htab p hp).1

theorem parameter_weights_le (c : String) : parameter_weights c ≤ 13/10 := by
  unfold parameter_weights
  cases hl : parameter_weights_table.lookup c with
  | none => norm_num
  | some v =>
    obtain ⟨p, hp, hv⟩ := lookup_val_mem hl
    have htab : ∀ p ∈ parameter_weights_table, 0 < p.2 ∧ p.2 ≤ 13/10 := by
      intro q hq
      fin_cases hq <;> norm_num
    rw [Option.getD_some, ← hv]
    exact (htab p hp).2

theorem anomalyFrac_nonneg (l : List ℚ) : 0 ≤ anomalyFrac l := by
  unfold anomalyFrac
  positivity

theorem anomalyFrac_le (l : List ℚ) : anomalyFrac l ≤ 10/13 := by
  unfold anomalyFrac
  rcases Nat.eq_zero_or_pos l.length with h0 | h0
  · rw [h0]; norm_num
  · have hb := anomaly_count_bound l
    have hlen : (0:ℚ) < (l.length : ℚ) := by exact_mod_cast h0
    rw [div_le_div_iff hlen (by norm_num : (0:ℚ) < 13)]
    have : (13 * anomalyCount l : ℚ) ≤ (10 * l.length : ℚ) := by
      exact_mod_cast hb
    linarith

theorem weightedScore_nonneg (c : String × List ℚ) : 0 ≤ weightedScore c :=
  mul_nonneg (anomalyFrac_nonneg c.2) (le_of_lt (parameter_weights_pos c.1))

/-- The importance weights (at most `1.3`) cannot push a weighted score past
`1`: the heart of the `anomaly_score ≤ 1` invariant. -/
theorem weightedScore_le_one (c : String × List ℚ) : weightedScore c ≤ 1 := by
  unfold weightedScore
  have h1 := anomalyFrac_nonneg c.2
  have h2 := anomalyFrac_le c.2
  have h3 := parameter_weights_pos c.1
  have h4 := parameter_weights_le c.1
  nlinarith

theorem weightedScore_empty (c : String × List ℚ) (h : c.2.length = 0) :
    weightedScore c = 0 := by
  unfold weightedScore anomalyFrac
  rw [h]
  simp

/-- The loop of `_statistical_anomaly_detection` collects exactly the
columns whose weighted score exceeds `0.3`, in order. -/
theorem statLoop_eq (t : List (String × List ℚ)) :
    statLoop t =
      ((t.filter (fun c => decide (3/10 < weightedScore c))).map Prod.fst,
       (t.filter (fun c => decide (3/10 < weightedScore c))).map
         weightedScore) := by
  have haux : ∀ (t : List (String × List ℚ)) (acc : List String × List ℚ),
      t.foldl
        (fun acc c =>
          if c.2.length = 0 then acc
          else if 3/10 < weightedScore c then
            (acc.1 ++ [c.1], acc.2 ++ [weightedScore c])
          else acc)
        acc =
      (acc.1 ++ (t.filter (fun c => decide (3/10 < weightedScore c))).map
        Prod.fst,
       acc.2 ++ (t.filter (fun c => decide (3/10 < weightedScore c))).map
        weightedScore) := by
    intro t
    induction t with
    | nil => intro acc; simp
    | cons c rest ih =>
      intro acc
      rw [List.foldl_cons, List.filter_cons]
      by_cases hemp : c.2.length = 0
      · have hws : weightedScore c = 0 := weightedScore_empty c hemp
        have hp : decide (3/10 < weightedScore c) = false := by
          rw [hws]; norm_num
        rw [hp]
        simp only [if_pos hemp, Bool.false_eq_true, if_false]
        exact ih acc
      · by_cases haff : 3/10 < weightedScore c
        · have hp : decide (3/10 < weightedScore c) = true := by
            simp [haff]
          rw [hp]
          simp only [if_neg hemp, if_pos haff, if_true]
          rw [ih (acc.1 ++ [c.1], acc.2 ++ [weightedScore c])]
          simp
        · have hp : decide (3/10 < weightedScore c) = false := by
            simp [haff]
          rw [hp]
          simp only [if_neg hemp, if_neg haff, Bool.false_eq_true, if_false]
          exact ih acc
  unfold statLoop
  rw [haux t ([], [])]
  simp

theorem statOverallScore_nonneg (t : List (String × List ℚ)) :
    0 ≤ statOverallScore t := by
  unfold statOverallScore
  split_ifs with h
  · exact le_refl 0
  · apply lmean_nonneg
    intro x hx
    rw [statLoop_eq t] at hx
    obtain ⟨c, _, rfl⟩ := List.mem_map.mp hx
    exact weightedScore_nonneg c

theorem statOverallScore_le_one (t : List (String × List ℚ)) :
    statOverallScore t ≤ 1 := by
  unfold statOverallScore
  split_ifs with h
  · norm_num
  · apply lmean_le _ _ (by norm_num)
    intro x hx
    rw [statLoop_eq t] at hx
    obtain ⟨c, _, rfl⟩ := List.mem_map.mp hx
    exact weightedScore_le_one c

theorem calculate_severity_range (x : ℚ) :
    1 ≤ calculate_severity x ∧ calculate_severity x ≤ 5 := by
  unfold calculate_severity
  split_ifs <;> omega

/-!
## Range lemmas for the classifier and predictor
-/

theorem clamp_severity_range (x : ℤ) :
    1 ≤ (max 1 (min 5 x)).toNat ∧ (max 1 (min 5 x)).toNat ≤ 5 := by
  omega

theorem storm_base_bounds (ws : ℚ) :
    (0 ≤ (storm_base ws).1 ∧ (storm_base ws).1 ≤ 1) ∧
      1 ≤ (storm_base ws).2 ∧ (storm_base ws).2 ≤ 5 := by
  unfold storm_base
  split_ifs <;> refine ⟨⟨?_, ?_⟩, ?_, ?_⟩ <;> norm_num

theorem storm_rule_bounds (ws p : ℚ) :
    (0 ≤ (storm_rule ws p).1 ∧ (storm_rule ws p).1 ≤ 1) ∧
      1 ≤ (storm_rule ws p).2 ∧ (storm_rule ws p).2 ≤ 5 := by
  have hb := storm_base_bounds ws
  unfold storm_rule
  split_ifs with hp
  · refine ⟨⟨?_, ?_⟩, ?_, ?_⟩
    · exact le_min (by linarith [hb.1.1]) (by norm_num)
    · exact min_le_right _ _
    · have h2 := hb.2.1; omega
    · have h2 := hb.2.2; omega
  · exact hb

theorem pollution_rule_bounds (pm25 pm10 : ℚ) :
    (0 ≤ (pollution_rule pm25 pm10).1 ∧ (pollution_rule pm25 pm10).1 ≤ 1) ∧
      1 ≤ (pollution_rule pm25 pm10).2 ∧ (pollution_rule pm25 pm10).2 ≤ 5 := by
  unfold pollution_rule
  split_ifs <;>
    refine ⟨⟨?_, ?_⟩, ?_, ?_⟩ <;>
    simp only [max_def] <;> (try split_ifs) <;> (first | linarith | omega | norm_num)

theorem pyInt_mul_bounds (c k : ℚ) (hc0 : 0 ≤ c) (hc1 : c ≤ 1) (hk : 0 ≤ k) :
    0 ≤ pyInt (c * k) ∧ pyInt (c * k) ≤ ⌈k⌉ := by
  unfold pyInt
  have hck : 0 ≤ c * k := mul_nonneg hc0 hk
  rw [if_pos hck]
  constructor
  · positivity
  · have h1 : c * k ≤ k := by nlinarith
    exact le_trans (Int.floor_le_floor h1) (Int.floor_le_ceil k)

theorem algal_bloom_rule_bounds (wt v s : ℚ) :
    (0 ≤ (algal_bloom_rule wt v s).1 ∧ (algal_bloom_rule wt v s).1 ≤ 1) ∧
      1 ≤ (algal_bloom_rule wt v s).2 ∧ (algal_bloom_rule wt v s).2 ≤ 5 := by
  unfold algal_bloom_rule
  refine ⟨⟨?_, ?_⟩, ?_, ?_⟩
  · simp only [le_min_iff]
    constructor
    · split_ifs <;> norm_num
    · norm_num
  · exact min_le_right _ _
  · exact (clamp_severity_range _).1
  · exact (clamp_severity_range _).2

theorem erosion_rule_bounds (wh ws : ℚ) (hwh : 0 ≤ wh) (hws : 0 ≤ ws) :
    (0 ≤ (erosion_rule wh ws).1 ∧ (erosion_rule wh ws).1 ≤ 1) ∧
      1 ≤ (erosion_rule wh ws).2 ∧ (erosion_rule wh ws).2 ≤ 5 := by
  unfold erosion_rule
  have h1 : 0 ≤ min (wh / 10) 1 := le_min (by positivity) (by norm_num)
  have h2 : min (wh / 10) 1 ≤ 1 := min_le_right _ _
  have h3 : 0 ≤ min (ws / 100) 1 := le_min (by positivity) (by norm_num)
  have h4 : min (ws / 100) 1 ≤ 1 := min_le_right _ _
  refine ⟨⟨?_, ?_⟩, ?_, ?_⟩
  · nlinarith
  · nlinarith
  · exact (clamp_severity_range _).1
  · exact (clamp_severity_range _).2

theorem illegal_dumping_rule_bounds (v : ℚ) :
    (0 ≤ (illegal_dumping_rule v).1 ∧ (illegal_dumping_rule v).1 ≤ 1) ∧
      1 ≤ (illegal_dumping_rule v).2 ∧ (illegal_dumping_rule v).2 ≤ 5 := by
  unfold illegal_dumping_rule
  split_ifs <;> norm_num

/-- Range invariant of the rule-based fallback, for inputs whose wave-height
and wind-speed readings are admissible (non-negative, as the preprocessing
valid ranges require): confidence in `[0,1]`, severity in `1..5` for every
category string. -/
theorem rule_based_detection_bounds (threat : String)
    (t : List (String × List ℚ)) (hwh : 0 ≤ latestGet t "wave_height" 0)
    (hws : 0 ≤ latestGet t "wind_speed" 0) :
    (0 ≤ (rule_based_detection threat t).1 ∧
        (rule_based_detection threat t).1 ≤ 1) ∧
      1 ≤ (rule_based_detection threat t).2 ∧
        (rule_based_detection threat t).2 ≤ 5 := by
  unfold rule_based_detection
  split_ifs
  · exact storm_rule_bounds _ _
  · exact pollution_rule_bounds _ _
  · exact algal_bloom_rule_bounds _ _ _
  · exact erosion_rule_bounds _ _ hwh hws
  · exact illegal_dumping_rule_bounds _
  · norm_num

theorem modelVoteConfidence_bounds (row : List ℚ)
    (h : ∀ x ∈ row, 0 ≤ x ∧ x ≤ 1) :
    0 ≤ modelVoteConfidence row ∧ modelVoteConfidence row ≤ 1 := by
  unfold modelVoteConfidence
  split_ifs with hlen
  · have hne : row ≠ [] := by
      intro he; rw [he] at hlen; simp at hlen
    have hm := lmax_mem row hne
    exact h _ hm
  · match row with
    | [] => simp
    | x :: xs =>
      have := h x (List.mem_cons_self x xs)
      simpa using this

theorem predict_with_ensemble_bounds (rows : List (List ℚ))
    (h : ∀ r ∈ rows, ∀ x ∈ r, 0 ≤ x ∧ x ≤ 1) :
    (0 ≤ (predict_with_ensemble rows).1 ∧
        (predict_with_ensemble rows).1 ≤ 1) ∧
      1 ≤ (predict_with_ensemble rows).2 ∧
        (predict_with_ensemble rows).2 ≤ 5 := by
  unfold predict_with_ensemble
  split_ifs with he
  · norm_num
  · have hmem : ∀ c ∈ rows.map modelVoteConfidence, 0 ≤ c ∧ c ≤ 1 := by
      intro c hc
      obtain ⟨r, hr, rfl⟩ := List.mem_map.mp hc
      exact modelVoteConfidence_bounds r (h r hr)
    refine ⟨⟨?_, ?_⟩, ?_, ?_⟩
    · exact lmean_nonneg _ (fun x hx => (hmem x hx).1)
    · exact lmean_le _ 1 (by norm_num) (fun x hx => (hmem x hx).2)
    · exact (clamp_severity_range _).1
    · exact (clamp_severity_range _).2

theorem descendingSeverity_bounds (ts : List ℚ) (v : ℚ) (i : ℕ) :
    1 ≤ descendingSeverity ts v i ∧
      descendingSeverity ts v i ≤ i + ts.length + 1 := by
  induction ts generalizing i with
  | nil => simp [descendingSeverity]
  | cons th rest ih =>
    unfold descendingSeverity
    split_ifs
    · simp only [List.length_cons]
      omega
    · have := ih (i + 1)
      simp only [List.length_cons]
      omega

theorem ascendingSeverity_bounds (ts : List ℚ) (v : ℚ) :
    1 ≤ ascendingSeverity ts v ∧ ascendingSeverity ts v ≤ 5 := by
  unfold ascendingSeverity
  constructor
  · have haux : ∀ (idxs : List ℕ) (s : ℕ), 1 ≤ s →
        1 ≤ idxs.foldl
          (fun severity i => if ts.getD i 0 ≤ v then i + 2 else severity) s := by
      intro idxs
      induction idxs with
      | nil => intro s hs; simpa using hs
      | cons j js ih =>
        intro s hs
        rw [List.foldl_cons]
        apply ih
        split_ifs <;> omega
    have := haux (List.range ts.length) 1 (le_refl 1)
    omega
  · exact min_le_right _ _

theorem risk_thresholds_len (p : String) (ts : List ℚ)
    (h : risk_thresholds p = some ts) : ts.length = 4 := by
  unfold risk_thresholds at h
  obtain ⟨q, hq, hv⟩ := lookup_val_mem h
  rw [← hv]
  fin_cases hq <;> rfl

theorem assess_threat_severity_range (p : String) (v : ℚ) :
    1 ≤ assess_threat_severity p v ∧ assess_threat_severity p v ≤ 5 := by
  unfold assess_threat_severity
  cases hrt : risk_thresholds p with
  | none => simp
  | some ts =>
    have hlen := risk_thresholds_len p ts hrt
    simp only []
    split_ifs
    · have := descendingSeverity_bounds ts v 0
      omega
    · exact ascendingSeverity_bounds ts v

theorem detect_single_threat_bounds (threat : String)
    (t : List (String × List ℚ)) (trained : Bool) (rows : List (List ℚ))
    (r : ThreatDetectionResult)
    (hrows : ∀ row ∈ rows, ∀ x ∈ row, 0 ≤ x ∧ x ≤ 1)
    (hwh : 0 ≤ latestGet t "wave_height" 0)
    (hws : 0 ≤ latestGet t "wind_speed" 0)
    (heq : detect_single_threat threat t trained rows = some r) :
    (0 ≤ r.confidence ∧ r.confidence ≤ 1) ∧
      1 ≤ r.severity ∧ r.severity ≤ 5 := by
  unfold detect_single_threat at heq
  cases trained
  · simp only [Bool.false_eq_true, if_false] at heq
    split_ifs at heq with hav
    rw [Option.some_inj] at heq
    have hcs := rule_based_detection_bounds threat t hwh hws
    rw [← heq]
    exact ⟨⟨pyRound4_nonneg _ hcs.1.1, pyRound4_le_one _ hcs.1.2⟩,
      hcs.2.1, hcs.2.2⟩
  · simp only [if_true] at heq
    split_ifs at heq with hav
    rw [Option.some_inj] at heq
    have hcs := predict_with_ensemble_bounds rows hrows
    rw [← heq]
    exact ⟨⟨pyRound4_nonneg _ hcs.1.1, pyRound4_le_one _ hcs.1.2⟩,
      hcs.2.1, hcs.2.2⟩

theorem mlScores_bounds (votes : List (List ℤ)) :
    ∀ x ∈ mlScores votes, 0 ≤ x ∧ x ≤ 1 := by
  intro x hx
  obtain ⟨p, _, rfl⟩ := List.mem_map.mp hx
  constructor
  · positivity
  · rcases Nat.eq_zero_or_pos p.length with h0 | h0
    · rw [h0]; norm_num
    · rw [div_le_one (by exact_mod_cast h0)]
      exact_mod_cast List.countP_le_length _

/-- The storm severity ladder is monotone in wind speed. -/
theorem storm_base_mono (ws ws' : ℚ) (h : ws ≤ ws') :
    (storm_base ws).2 ≤ (storm_base ws').2 := by
  unfold storm_base
  split_ifs <;> simp only [] <;> first | omega | linarith

theorem storm_rule_mono (ws ws' p : ℚ) (h : ws ≤ ws') :
    (storm_rule ws p).2 ≤ (storm_rule ws' p).2 := by
  have hb := storm_base_mono ws ws' h
  unfold storm_rule
  split_ifs with hp
  · simp only []
    omega
  · exact hb

/-!
## Alert-collection lemmas for the predictor
-/

theorem alertsFor_spec (p : String) (fhs : List ℕ) (preds : List ℚ)
    (ints : List (ℚ × ℚ)) :
    ∀ a ∈ alertsFor p fhs preds ints,
      a.parameter = p ∧ 3 ≤ a.severity ∧
        a.severity = assess_threat_severity p a.predicted_value := by
  intro a ha
  unfold alertsFor at ha
  obtain ⟨i, _, hf⟩ := List.mem_filterMap.mp ha
  split_ifs at hf with h1 h2 h3 <;>
    first
      | (rw [Option.some_inj] at hf
         rw [← hf]
         exact ⟨rfl, by assumption, rfl⟩)
      | simp at hf

theorem assess_pressure_eq (v : ℚ) :
    assess_threat_severity "pressure" v = if v ≤ 1000 then 2 else 1 := by
  have h : risk_thresholds "pressure" = some [1000, 990, 980, 970] := rfl
  unfold assess_threat_severity
  simp only [h]
  rw [if_pos (Or.inl trivial)]
  simp only [descendingSeverity]
  split_ifs <;> first | rfl | linarith

theorem assess_visibility_eq (v : ℚ) :
    assess_threat_severity "visibility" v = if v ≤ 5 then 2 else 1 := by
  have h : risk_thresholds "visibility" = some [5, 3, 2, 1] := rfl
  unfold assess_threat_severity
  simp only [h]
  rw [if_pos (Or.inr trivial)]
  simp only [descendingSeverity]
  split_ifs <;> first | rfl | linarith

/-!
## The claims
-/

/-- C3.  Range invariants over all valid inputs: both anomaly-scorer paths
return `anomaly_score ∈ [0,1]`, `confidence ∈ [0,1]` and `severity ∈ {1..5}`
(with the statistical path's overall score — the mean of importance-weighted
per-column anomaly fractions, weights up to 1.3 — never exceeding 1); every
classifier result has `confidence ∈ [0,1]` and `severity ∈ {1..5}` whenever
the model probabilities are probabilities and the wave-height and wind-speed
readings are non-negative; and the predictor's severity function always lands
in `{1..5}`. -/
theorem c3_range_invariants :
    (∀ t : List (String × List ℚ),
      statOverallScore t ≤ 1 ∧
      (0 ≤ (statistical_anomaly_detection t).anomaly_score ∧
        (statistical_anomaly_detection t).anomaly_score ≤ 1) ∧
      (0 ≤ (statistical_anomaly_detection t).confidence ∧
        (statistical_anomaly_detection t).confidence ≤ 1) ∧
      (1 ≤ (statistical_anomaly_detection t).severity ∧
        (statistical_anomaly_detection t).severity ≤ 5)) ∧
    (∀ (votes : List (List ℤ)) (hb : Bool) (bs : BaselineStats)
        (t : List (String × List ℚ)),
      (0 ≤ (ml_anomaly_detection votes hb bs t).anomaly_score ∧
        (ml_anomaly_detection votes hb bs t).anomaly_score ≤ 1) ∧
      (0 ≤ (ml_anomaly_detection votes hb bs t).confidence ∧
        (ml_anomaly_detection votes hb bs t).confidence ≤ 1) ∧
      (1 ≤ (ml_anomaly_detection votes hb bs t).severity ∧
        (ml_anomaly_detection votes hb bs t).severity ≤ 5)) ∧
    (∀ (threat : String) (t : List (String × List ℚ)) (trained : Bool)
        (rows : List (List ℚ)) (r : ThreatDetectionResult),
      (∀ row ∈ rows, ∀ x ∈ row, 0 ≤ x ∧ x ≤ 1) →
      0 ≤ latestGet t "wave_height" 0 →
      0 ≤ latestGet t "wind_speed" 0 →
      detect_single_threat threat t trained rows = some r →
      (0 ≤ r.confidence ∧ r.confidence ≤ 1) ∧
        1 ≤ r.severity ∧ r.severity ≤ 5) ∧
    (∀ (p : String) (v : ℚ),
      1 ≤ assess_threat_severity p v ∧ assess_threat_severity p v ≤ 5) := by
  refine ⟨?_, ?_, detect_single_threat_bounds, assess_threat_severity_range⟩
  · intro t
    have h0 := statOverallScore_nonneg t
    have h1 := statOverallScore_le_one t
    refine ⟨h1, ⟨pyRound4_nonneg _ h0, pyRound4_le_one _ h1⟩, ⟨?_, ?_⟩,
      calculate_severity_range _⟩
    · exact pyRound4_nonneg _ (le_min (by linarith) (by norm_num))
    · exact pyRound4_le_one _ (min_le_right _ _)
  · intro votes hb bs t
    unfold ml_anomaly_detection
    split_ifs with h
    · refine ⟨⟨le_refl 0, ?_⟩, ⟨le_refl 0, ?_⟩, le_refl 1, ?_⟩ <;>
        norm_num [create_empty_result]
    · have h0 : 0 ≤ lmean (mlScores votes) :=
        lmean_nonneg _ (fun x hx => (mlScores_bounds votes x hx).1)
      have h1 : lmean (mlScores votes) ≤ 1 :=
        lmean_le _ 1 (by norm_num) (fun x hx => (mlScores_bounds votes x hx).2)
    -- fields of the non-empty branch
      refine ⟨⟨pyRound4_nonneg _ h0, pyRound4_le_one _ h1⟩, ⟨?_, ?_⟩,
        calculate_severity_range _⟩
      · exact pyRound4_nonneg _ (le_min (by linarith) (by norm_num))
      · exact pyRound4_le_one _ (min_le_right _ _)

/-- Witness for C3's classifier conjunct at the concrete input `c3Input`. -/
theorem c3_range_invariants_witness :
    (0 ≤ c3Result.confidence ∧ c3Result.confidence ≤ 1) ∧
      1 ≤ c3Result.severity ∧ c3Result.severity ≤ 5 := by
  have hrule : rule_based_detection "storm" c3Input = (0, 1) := by
    have h1 : latestGet c3Input "wind_speed" 0 = 0 := rfl
    have h2 : latestGet c3Input "pressure" 1013 = 1013 := rfl
    unfold rule_based_detection
    rw [if_pos rfl, h1, h2]
    norm_num [storm_rule, storm_base]
  have hav : ((threat_features "storm").filter
      (fun f => (c3Input.lookup f).isSome)) = ["wind_speed", "pressure"] := rfl
  have heq : detect_single_threat "storm" c3Input false [] = some c3Result := by
    unfold detect_single_threat
    rw [hav, hrule]
    norm_num [pyRound4, pyRound, confidence_thresholds, c3Result]
  exact c3_range_invariants.2.2.1 "storm" c3Input false [] c3Result
    (by intro row hrow; exact absurd hrow (List.not_mem_nil row))
    (le_refl 0) (le_refl 0) heq

/-- C1, counterexample.  For twelve readings and requested horizons
`[2, 4]`, the pair handed to every horizon's model training is the single
`(X, y)` built from `max(forecast_hours) = 4`: both horizons receive labels
`[8, 9, 10, 11]` (4 steps ahead), while the training set the claim describes
for the 2-hour horizon has labels `[6, 7, 8, 9, 10, 11]` (2 steps ahead) —
so the 2h model's examples are neither labelled 2 steps ahead nor distinct
from the 4h model's. -/
theorem c1_counterexample :
    (predictParameterTrainingSets (fun q => q) c1Values [2, 4]).map Prod.snd =
      [create_time_series_features (fun q => q) c1Values 4,
       create_time_series_features (fun q => q) c1Values 4] ∧
    (create_time_series_features (fun q => q) c1Values 4).2 = [8, 9, 10, 11] ∧
    (specTrainingSet (fun q => q) c1Values 2).2 = [6, 7, 8, 9, 10, 11] ∧
    (create_time_series_features (fun q => q) c1Values 4).2 ≠
      (specTrainingSet (fun q => q) c1Values 2).2 := by
  refine ⟨rfl, rfl, rfl, ?_⟩
  intro h
  have hl := congrArg List.length h
  have h4 : (create_time_series_features (fun q => q) c1Values 4).2.length =
      4 := rfl
  have h6 : (specTrainingSet (fun q => q) c1Values 2).2.length = 6 := rfl
  omega

/-- C1, amended.  `X, y` are computed once from `max(forecast_hours)` before
the horizon loop, so every requested horizon trains on that same single
pair, whose labels sit exactly `max(forecast_hours)` steps after the window
(position `window_size + i` for the `i`-th example). -/
theorem c1_shared_training (sqrtQ : ℚ → ℚ) (values : List ℚ) (fhs : List ℕ) :
    (∀ e ∈ predictParameterTrainingSets sqrtQ values fhs,
      e.2 = create_time_series_features sqrtQ values (maxNat fhs)) ∧
    ∀ i, i < (create_time_series_features sqrtQ values (maxNat fhs)).2.length →
      (create_time_series_features sqrtQ values (maxNat fhs)).2.getD i 0 =
        values.getD (tsWindowSize values + i + maxNat fhs) 0 := by
  constructor
  · intro e he
    unfold predictParameterTrainingSets at he
    obtain ⟨fh, _, rfl⟩ := List.mem_map.mp he
    rfl
  · intro i hi
    unfold create_time_series_features at hi ⊢
    simp only [List.length_map] at hi
    rw [List.getD_eq_getElem _ _ (by simpa using hi)]
    simp only [List.getElem_map, List.getElem_range']
    congr 1
    omega

/-- Witness for C1's amended statement at the counterexample input. -/
theorem c1_shared_training_witness :
    ((2 : ℕ), create_time_series_features (fun q => q) c1Values 4).2 =
        create_time_series_features (fun q => q) c1Values (maxNat [2, 4]) ∧
    (create_time_series_features (fun q => q) c1Values (maxNat [2, 4])).2.getD
        0 0 =
      c1Values.getD (tsWindowSize c1Values + 0 + maxNat [2, 4]) 0 := by
  constructor
  · refine (c1_shared_training (fun q => q) c1Values [2, 4]).1 _ ?_
    rw [show predictParameterTrainingSets (fun q => q) c1Values [2, 4] =
      [(2, create_time_series_features (fun q => q) c1Values 4),
       (4, create_time_series_features (fun q => q) c1Values 4)] from rfl]
    exact List.mem_cons_self _ _
  · refine (c1_shared_training (fun q => q) c1Values [2, 4]).2 0 ?_
    rw [show (create_time_series_features (fun q => q) c1Values
      (maxNat [2, 4])).2.length = 4 from rfl]
    norm_num

theorem c4_sort1 : sortedVals [1000, 1010, 1020] = [1000, 1010, 1020] := by
  unfold sortedVals
  norm_num [List.insertionSort, List.orderedInsert]

theorem c4_q12 : quantileVals [1000, 1010, 1020] (1/2) = 1010 := by
  unfold quantileVals
  rw [c4_sort1]
  norm_num [quantileSorted, List.getD]

theorem c4_q14 : quantileVals [1000, 1010, 1020] (1/4) = 1005 := by
  unfold quantileVals
  rw [c4_sort1]
  norm_num [quantileSorted, List.getD]

theorem c4_q34 : quantileVals [1000, 1010, 1020] (3/4) = 1015 := by
  unfold quantileVals
  rw [c4_sort1]
  norm_num [quantileSorted, List.getD]

theorem c4_scale1 : robustScaleColumn [some 1000, some 1010, some 1020] =
    [some (-1), some 0, some 1] := by
  simp only [robustScaleColumn]
  rw [show List.filterMap id [some (1000:ℚ), some 1010, some 1020] =
    [1000, 1010, 1020] from rfl]
  rw [c4_q12, c4_q14, c4_q34]
  norm_num

theorem c4_pass1 : prepare_features c4Input =
    [("pressure", [some (-1), some 0, some 1])] := by
  have hrf : rangeFilterColumn "pressure" [some 1000, some 1010, some 1020] =
      [some 1000, some 1010, some 1020] := by
    rw [show rangeFilterColumn "pressure" [some 1000, some 1010, some 1020] =
      [some (1000:ℚ), some 1010, some 1020].map (fun x =>
        match x with
        | some v => if v < 900 ∨ 1100 < v then none else some v
        | none => none) from rfl]
    norm_num
  have hclean : clean_and_standardize c4Input =
      [("pressure", [some 1000, some 1010, some 1020])] := by
    rw [show clean_and_standardize c4Input =
      [("pressure", rangeFilterColumn "pressure"
        [some 1000, some 1010, some 1020])] from rfl, hrf]
  unfold prepare_features
  rw [hclean]
  rw [show handle_missing_values
    [("pressure", [some 1000, some 1010, some 1020])] =
    [("pressure", [some 1000, some 1010, some 1020])] from rfl]
  rw [show handle_outliers [("pressure", [some 1000, some 1010, some 1020])] =
    [("pressure", [some 1000, some 1010, some 1020])] from rfl]
  rw [show engineer_features
    [("pressure", [some 1000, some 1010, some 1020])] =
    [("pressure", [some 1000, some 1010, some 1020])] from rfl]
  rw [show scale_features [("pressure", [some 1000, some 1010, some 1020])] =
    [("pressure", robustScaleColumn
      [some 1000, some 1010, some 1020])] from rfl]
  rw [c4_scale1]

theorem c4_sort0 : sortedVals [0, 0, 0] = [0, 0, 0] := by
  unfold sortedVals
  norm_num [List.insertionSort, List.orderedInsert]

theorem getD000 (n : ℕ) : ([0, 0, 0] : List ℚ).getD n 0 = 0 := by
  match n with
  | 0 => rfl
  | 1 => rfl
  | 2 => rfl
  | n + 3 => rfl

theorem c4_q0 (q : ℚ) : quantileSorted [0, 0, 0] q = 0 := by
  simp only [quantileSorted, getD000]
  ring

theorem c4_scale0 : robustScaleColumn [some 0, some 0, some 0] =
    [some 0, some 0, some 0] := by
  simp only [robustScaleColumn]
  rw [show List.filterMap id [some (0:ℚ), some 0, some 0] = [0, 0, 0] from rfl]
  unfold quantileVals
  rw [c4_sort0, c4_q0, c4_q0, c4_q0]
  norm_num

theorem c4_pass2 :
    prepare_features [("pressure", [some (-1), some 0, some 1])] =
      [("pressure", [some 0, some 0, some 0])] := by
  have hrf : rangeFilterColumn "pressure" [some (-1), some 0, some 1] =
      [none, none, none] := by
    rw [show rangeFilterColumn "pressure" [some (-1), some 0, some 1] =
      [some (-1 : ℚ), some 0, some 1].map (fun x =>
        match x with
        | some v => if v < 900 ∨ 1100 < v then none else some v
        | none => none) from rfl]
    norm_num
  have hclean :
      clean_and_standardize [("pressure", [some (-1), some 0, some 1])] =
        [("pressure", [none, none, none])] := by
    rw [show clean_and_standardize [("pressure", [some (-1), some 0, some 1])] =
      [("pressure", rangeFilterColumn "pressure"
        [some (-1), some 0, some 1])] from rfl, hrf]
  unfold prepare_features
  rw [hclean]
  rw [show handle_missing_values
    [("pressure", ([none, none, none] : List (Option ℚ)))] =
    [("pressure", [some 0, some 0, some 0])] from rfl]
  rw [show handle_outliers [("pressure", [some 0, some 0, some 0])] =
    [("pressure", [some 0, some 0, some 0])] from rfl]
  rw [show engineer_features [("pressure", [some 0, some 0, some 0])] =
    [("pressure", [some 0, some 0, some 0])] from rfl]
  rw [show scale_features [("pressure", [some 0, some 0, some 0])] =
    [("pressure", robustScaleColumn [some 0, some 0, some 0])] from rfl]
  rw [c4_scale0]

/-- C4, counterexample.  On a single in-range pressure column the first
pass robust-scales the values to `[-1, 0, 1]`; the second pass's valid-range
filter (pressure must lie in `[900, 1100]`) then nulls every cell, the
missing-value handler zero-fills them and the result `[0, 0, 0]` differs
from the first pass's output: `prepare_features` is not idempotent. -/
theorem c4_counterexample :
    prepare_features c4Input = [("pressure", [some (-1), some 0, some 1])] ∧
    prepare_features (prepare_features c4Input) =
      [("pressure", [some 0, some 0, some 0])] ∧
    prepare_features (prepare_features c4Input) ≠ prepare_features c4Input := by
  refine ⟨c4_pass1, ?_, ?_⟩
  · rw [c4_pass1]
    exact c4_pass2
  · rw [c4_pass1, c4_pass2]
    intro h
    have h0 := congrArg (fun u => (((u.headD ("", [])).2.headD none).getD 37) : Frame → ℚ) h
    norm_num at h0

/-!
## Column-name lemmas for the preprocessing pipeline
-/

theorem colNames_map_name (t : Frame)
    (g : String × List (Option ℚ) → String × List (Option ℚ))
    (h : ∀ c, (g c).1 = c.1) : colNames (t.map g) = colNames t := by
  induction t with
  | nil => rfl
  | cons c rest ih =>
    simp only [colNames, List.map_cons] at ih ⊢
    rw [h c, ih]

theorem mem_colNames_lookup (t : Frame) (n : String) :
    (t.lookup n).isSome = true ↔ n ∈ colNames t := by
  induction t with
  | nil => simp [colNames]
  | cons c rest ih =>
    rcases c with ⟨m, col⟩
    by_cases h : n = m
    · subst h
      simp [List.lookup, colNames]
    · have hb : (n == m) = false := beq_eq_false_iff_ne.mpr h
      simp only [List.lookup, hb, colNames, List.map_cons, List.mem_cons]
      rw [ih]
      simp [colNames, h]

theorem lookup_mem_frame (t : Frame) (n : String) (col : List (Option ℚ))
    (h : t.lookup n = some col) : (n, col) ∈ t := by
  induction t with
  | nil => simp [List.lookup] at h
  | cons c rest ih =>
    rcases c with ⟨m, col'⟩
    by_cases hnm : n = m
    · subst hnm
      rw [show List.lookup n ((n, col') :: rest) =
        some col' by simp [List.lookup]] at h
      rw [Option.some_inj] at h
      subst h
      exact List.mem_cons_self _ _
    · have hb : (n == m) = false := beq_eq_false_iff_ne.mpr hnm
      rw [show List.lookup n ((m, col') :: rest) = List.lookup n rest by
        simp [List.lookup, hb]] at h
      exact List.mem_cons_of_mem _ (ih h)

theorem colNames_setColumn_mem (t : Frame) (m : String)
    (col : List (Option ℚ)) (h : m ∈ colNames t) :
    colNames (setColumn t m col) = colNames t := by
  unfold setColumn
  rw [if_pos ((mem_colNames_lookup t m).mpr h)]
  apply colNames_map_name
  intro c
  split_ifs with hc
  · exact hc.symm
  · rfl

theorem mem_colNames_setColumn (t : Frame) (m n : String)
    (col : List (Option ℚ)) (h : n ∈ colNames t) :
    n ∈ colNames (setColumn t m col) := by
  unfold setColumn
  split_ifs with hs
  · rw [colNames_map_name _ _ (by
      intro c
      split_ifs with hc
      · exact hc.symm
      · rfl)]
    exact h
  · unfold colNames
    rw [List.map_append]
    exact List.mem_append_left _ h

theorem self_mem_colNames_setColumn (t : Frame) (m : String)
    (col : List (Option ℚ)) : m ∈ colNames (setColumn t m col) := by
  unfold setColumn
  split_ifs with hs
  · rw [colNames_map_name _ _ (by
      intro c
      split_ifs with hc
      · exact hc.symm
      · rfl)]
    exact (mem_colNames_lookup t m).mp hs
  · unfold colNames
    rw [List.map_append]
    exact List.mem_append_right _ (by simp)

theorem mem_colNames_setColumn_inv (t : Frame) (m n : String)
    (col : List (Option ℚ)) (h : n ∈ colNames (setColumn t m col)) :
    n ∈ colNames t ∨ n = m := by
  unfold setColumn at h
  split_ifs at h with hs
  · rw [colNames_map_name _ _ (by
      intro c
      split_ifs with hc
      · exact hc.symm
      · rfl)] at h
    exact Or.inl h
  · unfold colNames at h
    rw [List.map_append] at h
    rcases List.mem_append.mp h with h | h
    · exact Or.inl h
    · simp at h
      exact Or.inr h

theorem setColumn_good (t : Frame) (m : String) (col : List (Option ℚ))
    (hg : ∀ c ∈ t, goodCol c) (hcol : goodCol (m, col)) :
    ∀ c ∈ setColumn t m col, goodCol c := by
  intro c hc
  unfold setColumn at hc
  split_ifs at hc with hs
  · obtain ⟨c', hc', rfl⟩ := List.mem_map.mp hc
    split_ifs with he
    · exact hcol
    · exact hg c' hc'
  · rcases List.mem_append.mp hc with h | h
    · exact hg c h
    · rw [List.mem_singleton] at h
      subst h
      exact hcol

theorem colNames_addDerived_closed (inputs : List String) (m : String)
    (mk : Frame → List (Option ℚ)) (t : Frame)
    (h : (inputs.all (fun i => (t.lookup i).isSome)) = true →
      m ∈ colNames t) :
    colNames (addDerived inputs m mk t) = colNames t := by
  unfold addDerived
  split_ifs with hc
  · exact colNames_setColumn_mem t m (mk t) (h hc)
  · rfl

theorem mem_colNames_addDerived (inputs : List String) (m n : String)
    (mk : Frame → List (Option ℚ)) (t : Frame) (h : n ∈ colNames t) :
    n ∈ colNames (addDerived inputs m mk t) := by
  unfold addDerived
  split_ifs with hc
  · exact mem_colNames_setColumn t m n (mk t) h
  · exact h

theorem self_mem_colNames_addDerived (inputs : List String) (m : String)
    (mk : Frame → List (Option ℚ)) (t : Frame)
    (h : (inputs.all (fun i => (t.lookup i).isSome)) = true) :
    m ∈ colNames (addDerived inputs m mk t) := by
  unfold addDerived
  rw [if_pos h]
  exact self_mem_colNames_setColumn t m (mk t)

theorem mem_colNames_addDerived_inv (inputs : List String) (m n : String)
    (mk : Frame → List (Option ℚ)) (t : Frame)
    (h : n ∈ colNames (addDerived inputs m mk t)) :
    n ∈ colNames t ∨ n = m := by
  unfold addDerived at h
  split_ifs at h with hc
  · exact mem_colNames_setColumn_inv t m n (mk t) h
  · exact Or.inl h

theorem addDerived_good (inputs : List String) (m : String)
    (mk : Frame → List (Option ℚ)) (t : Frame)
    (hg : ∀ c ∈ t, goodCol c)
    (hmk : (inputs.all (fun i => (t.lookup i).isSome)) = true →
      goodCol (m, mk t)) :
    ∀ c ∈ addDerived inputs m mk t, goodCol c := by
  intro c hc
  unfold addDerived at hc
  split_ifs at hc with hs
  · exact setColumn_good t m (mk t) hg (hmk hs) c hc
  · exact hg c hc

theorem cellMap2_some (f : ℚ → ℚ → ℚ) :
    ∀ (a b : List (Option ℚ)), (∀ x ∈ a, x.isSome = true) →
      (∀ x ∈ b, x.isSome = true) → ∀ x ∈ cellMap2 f a b, x.isSome = true
  | [], b, ha, hb => by
    intro x hx
    simp [cellMap2] at hx
  | u :: us, [], ha, hb => by
    intro x hx
    simp [cellMap2] at hx
  | u :: us, v :: vs, ha, hb => by
    intro x hx
    obtain ⟨uu, rfl⟩ := Option.isSome_iff_exists.mp
      (ha u (List.mem_cons_self u us))
    obtain ⟨vv, rfl⟩ := Option.isSome_iff_exists.mp
      (hb v (List.mem_cons_self v vs))
    rw [show cellMap2 f (some uu :: us) (some vv :: vs) =
      some (f uu vv) :: cellMap2 f us vs from rfl] at hx
    rcases List.mem_cons.mp hx with h | h
    · subst h
      rfl
    · exact cellMap2_some f us vs (fun y hy => ha y (List.mem_cons_of_mem _ hy))
        (fun y hy => hb y (List.mem_cons_of_mem _ hy)) x h

theorem cellMap2_ne_nil (f : ℚ → ℚ → ℚ) (a b : List (Option ℚ))
    (ha : a ≠ []) (hb : b ≠ []) : cellMap2 f a b ≠ [] := by
  match a, b with
  | [], _ => exact absurd rfl ha
  | _ :: _, [] => exact absurd rfl hb
  | x :: xs, y :: ys =>
    unfold cellMap2
    rw [List.zipWith_cons_cons]
    exact List.cons_ne_nil _ _

theorem getColumn_good (t : Frame) (n : String)
    (hg : ∀ c ∈ t, goodCol c) (h : (t.lookup n).isSome = true) :
    getColumn t n ≠ [] ∧ ∀ x ∈ getColumn t n, x.isSome = true := by
  obtain ⟨col, hl⟩ := Option.isSome_iff_exists.mp h
  have hm := lookup_mem_frame t n col hl
  have hgc := hg _ hm
  rw [getColumn, hl]
  exact hgc

theorem optionMap_col_good (g : ℚ → ℚ) (col : List (Option ℚ))
    (h : col ≠ [] ∧ ∀ x ∈ col, x.isSome = true) :
    col.map (Option.map g) ≠ [] ∧
      ∀ x ∈ col.map (Option.map g), x.isSome = true := by
  constructor
  · intro hc
    exact h.1 (List.map_eq_nil_iff.mp hc)
  · intro x hx
    obtain ⟨y, hy, rfl⟩ := List.mem_map.mp hx
    have h2 := h.2 y hy
    obtain ⟨z, rfl⟩ := Option.isSome_iff_exists.mp h2
    rfl

theorem colNames_engStage1_closed (t : Frame)
    (h : "temperature" ∈ colNames t → "humidity" ∈ colNames t →
      "heat_index" ∈ colNames t) :
    colNames (engStage1 t) = colNames t := by
  unfold engStage1
  apply colNames_addDerived_closed
  intro hc
  simp only [List.all_cons, List.all_nil, Bool.and_true, Bool.and_eq_true] at hc
  exact h ((mem_colNames_lookup t _).mp hc.1) ((mem_colNames_lookup t _).mp hc.2)

theorem mem_colNames_engStage1 (t : Frame) (n : String)
    (h : n ∈ colNames t) : n ∈ colNames (engStage1 t) := by
  unfold engStage1
  exact mem_colNames_addDerived _ _ _ _ _ h

theorem self_mem_engStage1 (t : Frame) (h1 : "temperature" ∈ colNames t) (h2 : "humidity" ∈ colNames t) :
    "heat_index" ∈ colNames (engStage1 t) := by
  unfold engStage1
  apply self_mem_colNames_addDerived
  simp only [List.all_cons, List.all_nil, Bool.and_true, Bool.and_eq_true]
  exact ⟨(mem_colNames_lookup t _).mpr h1, (mem_colNames_lookup t _).mpr h2⟩

theorem mem_colNames_engStage1_inv (t : Frame) (n : String)
    (h : n ∈ colNames (engStage1 t)) :
    n ∈ colNames t ∨ n = "heat_index" := by
  unfold engStage1 at h
  exact mem_colNames_addDerived_inv _ _ _ _ _ h

theorem engStage1_good (t : Frame) (hg : ∀ c ∈ t, goodCol c) :
    ∀ c ∈ engStage1 t, goodCol c := by
  unfold engStage1
  apply addDerived_good _ _ _ _ hg
  intro htr
  simp only [List.all_cons, List.all_nil, Bool.and_true, Bool.and_eq_true] at htr
  have g1 := getColumn_good t "temperature" hg htr.1
  have g2 := getColumn_good t "humidity" hg htr.2
  exact ⟨cellMap2_ne_nil _ _ _ g1.1 g2.1, cellMap2_some _ _ _ g1.2 g2.2⟩

theorem colNames_engStage2_closed (t : Frame)
    (h : "temperature" ∈ colNames t → "pressure" ∈ colNames t →
      "density_altitude" ∈ colNames t) :
    colNames (engStage2 t) = colNames t := by
  unfold engStage2
  apply colNames_addDerived_closed
  intro hc
  simp only [List.all_cons, List.all_nil, Bool.and_true, Bool.and_eq_true] at hc
  exact h ((mem_colNames_lookup t _).mp hc.1) ((mem_colNames_lookup t _).mp hc.2)

theorem mem_colNames_engStage2 (t : Frame) (n : String)
    (h : n ∈ colNames t) : n ∈ colNames (engStage2 t) := by
  unfold engStage2
  exact mem_colNames_addDerived _ _ _ _ _ h

theorem self_mem_engStage2 (t : Frame) (h1 : "temperature" ∈ colNames t) (h2 : "pressure" ∈ colNames t) :
    "density_altitude" ∈ colNames (engStage2 t) := by
  unfold engStage2
  apply self_mem_colNames_addDerived
  simp only [List.all_cons, List.all_nil, Bool.and_true, Bool.and_eq_true]
  exact ⟨(mem_colNames_lookup t _).mpr h1, (mem_colNames_lookup t _).mpr h2⟩

theorem mem_colNames_engStage2_inv (t : Frame) (n : String)
    (h : n ∈ colNames (engStage2 t)) :
    n ∈ colNames t ∨ n = "density_altitude" := by
  unfold engStage2 at h
  exact mem_colNames_addDerived_inv _ _ _ _ _ h

theorem engStage2_good (t : Frame) (hg : ∀ c ∈ t, goodCol c) :
    ∀ c ∈ engStage2 t, goodCol c := by
  unfold engStage2
  apply addDerived_good _ _ _ _ hg
  intro htr
  simp only [List.all_cons, List.all_nil, Bool.and_true, Bool.and_eq_true] at htr
  have g1 := getColumn_good t "temperature" hg htr.1
  have g2 := getColumn_good t "pressure" hg htr.2
  exact ⟨cellMap2_ne_nil _ _ _ g1.1 g2.1, cellMap2_some _ _ _ g1.2 g2.2⟩

theorem colNames_engStage3_closed (t : Frame)
    (h : "pm25" ∈ colNames t → "aqi_pm25" ∈ colNames t) :
    colNames (engStage3 t) = colNames t := by
  unfold engStage3
  apply colNames_addDerived_closed
  intro hc
  simp only [List.all_cons, List.all_nil, Bool.and_true] at hc
  exact h ((mem_colNames_lookup t _).mp hc)

theorem mem_colNames_engStage3 (t : Frame) (n : String)
    (h : n ∈ colNames t) : n ∈ colNames (engStage3 t) := by
  unfold engStage3
  exact mem_colNames_addDerived _ _ _ _ _ h

theorem self_mem_engStage3 (t : Frame) (h1 : "pm25" ∈ colNames t) :
    "aqi_pm25" ∈ colNames (engStage3 t) := by
  unfold engStage3
  apply self_mem_colNames_addDerived
  simp only [List.all_cons, List.all_nil, Bool.and_true]
  exact (mem_colNames_lookup t _).mpr h1

theorem mem_colNames_engStage3_inv (t : Frame) (n : String)
    (h : n ∈ colNames (engStage3 t)) :
    n ∈ colNames t ∨ n = "aqi_pm25" := by
  unfold engStage3 at h
  exact mem_colNames_addDerived_inv _ _ _ _ _ h

theorem engStage3_good (t : Frame) (hg : ∀ c ∈ t, goodCol c) :
    ∀ c ∈ engStage3 t, goodCol c := by
  unfold engStage3
  apply addDerived_good _ _ _ _ hg
  intro htr
  simp only [List.all_cons, List.all_nil, Bool.and_true] at htr
  exact optionMap_col_good _ _ (getColumn_good t "pm25" hg htr)

theorem colNames_engStage4_closed (t : Frame)
    (h : "pm10" ∈ colNames t → "aqi_pm10" ∈ colNames t) :
    colNames (engStage4 t) = colNames t := by
  unfold engStage4
  apply colNames_addDerived_closed
  intro hc
  simp only [List.all_cons, List.all_nil, Bool.and_true] at hc
  exact h ((mem_colNames_lookup t _).mp hc)

theorem mem_colNames_engStage4 (t : Frame) (n : String)
    (h : n ∈ colNames t) : n ∈ colNames (engStage4 t) := by
  unfold engStage4
  exact mem_colNames_addDerived _ _ _ _ _ h

theorem self_mem_engStage4 (t : Frame) (h1 : "pm10" ∈ colNames t) :
    "aqi_pm10" ∈ colNames (engStage4 t) := by
  unfold engStage4
  apply self_mem_colNames_addDerived
  simp only [List.all_cons, List.all_nil, Bool.and_true]
  exact (mem_colNames_lookup t _).mpr h1

theorem mem_colNames_engStage4_inv (t : Frame) (n : String)
    (h : n ∈ colNames (engStage4 t)) :
    n ∈ colNames t ∨ n = "aqi_pm10" := by
  unfold engStage4 at h
  exact mem_colNames_addDerived_inv _ _ _ _ _ h

theorem engStage4_good (t : Frame) (hg : ∀ c ∈ t, goodCol c) :
    ∀ c ∈ engStage4 t, goodCol c := by
  unfold engStage4
  apply addDerived_good _ _ _ _ hg
  intro htr
  simp only [List.all_cons, List.all_nil, Bool.and_true] at htr
  exact optionMap_col_good _ _ (getColumn_good t "pm10" hg htr)

theorem colNames_engStage5_closed (t : Frame)
    (h : "wave_height" ∈ colNames t → "wind_speed" ∈ colNames t →
      "wave_energy" ∈ colNames t) :
    colNames (engStage5 t) = colNames t := by
  unfold engStage5
  apply colNames_addDerived_closed
  intro hc
  simp only [List.all_cons, List.all_nil, Bool.and_true, Bool.and_eq_true] at hc
  exact h ((mem_colNames_lookup t _).mp hc.1) ((mem_colNames_lookup t _).mp hc.2)

theorem mem_colNames_engStage5 (t : Frame) (n : String)
    (h : n ∈ colNames t) : n ∈ colNames (engStage5 t) := by
  unfold engStage5
  exact mem_colNames_addDerived _ _ _ _ _ h

theorem self_mem_engStage5 (t : Frame) (h1 : "wave_height" ∈ colNames t) (h2 : "wind_speed" ∈ colNames t) :
    "wave_energy" ∈ colNames (engStage5 t) := by
  unfold engStage5
  apply self_mem_colNames_addDerived
  simp only [List.all_cons, List.all_nil, Bool.and_true, Bool.and_eq_true]
  exact ⟨(mem_colNames_lookup t _).mpr h1, (mem_colNames_lookup t _).mpr h2⟩

theorem mem_colNames_engStage5_inv (t : Frame) (n : String)
    (h : n ∈ colNames (engStage5 t)) :
    n ∈ colNames t ∨ n = "wave_energy" := by
  unfold engStage5 at h
  exact mem_colNames_addDerived_inv _ _ _ _ _ h

theorem engStage5_good (t : Frame) (hg : ∀ c ∈ t, goodCol c) :
    ∀ c ∈ engStage5 t, goodCol c := by
  unfold engStage5
  apply addDerived_good _ _ _ _ hg
  intro htr
  simp only [List.all_cons, List.all_nil, Bool.and_true, Bool.and_eq_true] at htr
  have g1 := getColumn_good t "wave_height" hg htr.1
  have g2 := getColumn_good t "wind_speed" hg htr.2
  exact ⟨cellMap2_ne_nil _ _ _ g1.1 g2.1, cellMap2_some _ _ _ g1.2 g2.2⟩


theorem colNames_engineer_closed (w : Frame) (hcl : engineeredClosed w) :
    colNames (engineer_features w) = colNames w := by
  obtain ⟨h1, h2, h3, h4, h5⟩ := hcl
  unfold engineer_features
  have e1 : colNames (engStage1 w) = colNames w :=
    colNames_engStage1_closed w h1
  have e2 : colNames (engStage2 (engStage1 w)) = colNames w := by
    rw [colNames_engStage2_closed _ (by
      intro a b
      rw [e1] at a b ⊢
      exact h2 a b)]
    exact e1
  have e3 : colNames (engStage3 (engStage2 (engStage1 w))) = colNames w := by
    rw [colNames_engStage3_closed _ (by
      intro a
      rw [e2] at a ⊢
      exact h3 a)]
    exact e2
  have e4 : colNames (engStage4 (engStage3 (engStage2 (engStage1 w)))) =
      colNames w := by
    rw [colNames_engStage4_closed _ (by
      intro a
      rw [e3] at a ⊢
      exact h4 a)]
    exact e3
  rw [colNames_engStage5_closed _ (by
    intro a b
    rw [e4] at a b ⊢
    exact h5 a b)]
  exact e4

theorem mem_colNames_engineer (v : Frame) (n : String)
    (h : n ∈ colNames v) : n ∈ colNames (engineer_features v) := by
  unfold engineer_features
  exact mem_colNames_engStage5 _ _ (mem_colNames_engStage4 _ _
    (mem_colNames_engStage3 _ _ (mem_colNames_engStage2 _ _
      (mem_colNames_engStage1 _ _ h))))

theorem mem_colNames_engineer_inv (v : Frame) (n : String)
    (h : n ∈ colNames (engineer_features v)) :
    n ∈ colNames v ∨ n ∈ ["heat_index", "density_altitude", "aqi_pm25",
      "aqi_pm10", "wave_energy"] := by
  unfold engineer_features at h
  rcases mem_colNames_engStage5_inv _ _ h with h | h
  · rcases mem_colNames_engStage4_inv _ _ h with h | h
    · rcases mem_colNames_engStage3_inv _ _ h with h | h
      · rcases mem_colNames_engStage2_inv _ _ h with h | h
        · rcases mem_colNames_engStage1_inv _ _ h with h | h
          · exact Or.inl h
          · exact Or.inr (by rw [h]; simp)
        · exact Or.inr (by rw [h]; simp)
      · exact Or.inr (by rw [h]; simp)
    · exact Or.inr (by rw [h]; simp)
  · exact Or.inr (by rw [h]; simp)

theorem engineer_good (v : Frame) (hg : ∀ c ∈ v, goodCol c) :
    ∀ c ∈ engineer_features v, goodCol c := by
  unfold engineer_features
  exact engStage5_good _ (engStage4_good _ (engStage3_good _
    (engStage2_good _ (engStage1_good _ hg))))

theorem engineer_closed (v : Frame) :
    engineeredClosed (engineer_features v) := by
  refine ⟨?_, ?_, ?_, ?_, ?_⟩
  · intro ht hh
    rcases mem_colNames_engineer_inv v _ ht with ht' | ht'
    swap
    · simp at ht'
    rcases mem_colNames_engineer_inv v _ hh with hh' | hh'
    swap
    · simp at hh'
    unfold engineer_features
    exact mem_colNames_engStage5 _ _ (mem_colNames_engStage4 _ _
      (mem_colNames_engStage3 _ _ (mem_colNames_engStage2 _ _
        (self_mem_engStage1 _ ht' hh'))))
  · intro ht hp
    rcases mem_colNames_engineer_inv v _ ht with ht' | ht'
    swap
    · simp at ht'
    rcases mem_colNames_engineer_inv v _ hp with hp' | hp'
    swap
    · simp at hp'
    unfold engineer_features
    exact mem_colNames_engStage5 _ _ (mem_colNames_engStage4 _ _
      (mem_colNames_engStage3 _ _ (self_mem_engStage2 _
        (mem_colNames_engStage1 _ _ ht') (mem_colNames_engStage1 _ _ hp'))))
  · intro hm
    rcases mem_colNames_engineer_inv v _ hm with hm' | hm'
    swap
    · simp at hm'
    unfold engineer_features
    exact mem_colNames_engStage5 _ _ (mem_colNames_engStage4 _ _
      (self_mem_engStage3 _ (mem_colNames_engStage2 _ _
        (mem_colNames_engStage1 _ _ hm'))))
  · intro hm
    rcases mem_colNames_engineer_inv v _ hm with hm' | hm'
    swap
    · simp at hm'
    unfold engineer_features
    exact mem_colNames_engStage5 _ _ (self_mem_engStage4 _
      (mem_colNames_engStage3 _ _ (mem_colNames_engStage2 _ _
        (mem_colNames_engStage1 _ _ hm'))))
  · intro hw hs
    rcases mem_colNames_engineer_inv v _ hw with hw' | hw'
    swap
    · simp at hw'
    rcases mem_colNames_engineer_inv v _ hs with hs' | hs'
    swap
    · simp at hs'
    unfold engineer_features
    exact self_mem_engStage5 _
      (mem_colNames_engStage4 _ _ (mem_colNames_engStage3 _ _
        (mem_colNames_engStage2 _ _ (mem_colNames_engStage1 _ _ hw'))))
      (mem_colNames_engStage4 _ _ (mem_colNames_engStage3 _ _
        (mem_colNames_engStage2 _ _ (mem_colNames_engStage1 _ _ hs'))))

theorem colNames_missing_fill (w : Frame) :
    colNames (missing_fill w) = colNames w := by
  apply colNames_map_name
  intro c
  split_ifs <;> rfl

theorem colNames_handle_missing (w : Frame) :
    colNames (handle_missing_values w) = colNames w := by
  unfold handle_missing_values
  split_ifs with h
  · rw [colNames_map_name, colNames_missing_fill]
    intro c
    rfl
  · exact colNames_missing_fill w

theorem handle_missing_some (w : Frame) :
    ∀ c ∈ handle_missing_values w, ∀ x ∈ c.2, x.isSome = true := by
  intro c hc x hx
  unfold handle_missing_values at hc
  split_ifs at hc with h
  · obtain ⟨c', hc', rfl⟩ := List.mem_map.mp hc
    dsimp only at hx
    obtain ⟨y, hy, rfl⟩ := List.mem_map.mp hx
    rfl
  · rcases x with _ | y
    · exfalso
      apply h
      rw [List.any_eq_true]
      refine ⟨c, hc, ?_⟩
      rw [List.any_eq_true]
      exact ⟨none, hx, rfl⟩
    · rfl

theorem ffillGo_length : ∀ (carry : Option ℚ) (l : List (Option ℚ)),
    (ffillGo carry l).length = l.length
  | _, [] => rfl
  | carry, some v :: xs => by
    rw [show ffillGo carry (some v :: xs) = some v :: ffillGo (some v) xs
      from rfl]
    simp [ffillGo_length]
  | carry, none :: xs => by
    rw [show ffillGo carry (none :: xs) = carry :: ffillGo carry xs from rfl]
    simp [ffillGo_length]

theorem bfill_ffill_length (col : List (Option ℚ)) :
    (bfill (ffill col)).length = col.length := by
  unfold bfill ffill
  rw [List.length_reverse, ffillGo_length, List.length_reverse,
    ffillGo_length]

theorem handle_missing_nonempty (w : Frame) (hne : ∀ c ∈ w, c.2 ≠ []) :
    ∀ c ∈ handle_missing_values w, c.2 ≠ [] := by
  have hfill : ∀ c ∈ missing_fill w, c.2 ≠ [] := by
    intro c hc
    unfold missing_fill at hc
    obtain ⟨c', hc', rfl⟩ := List.mem_map.mp hc
    have h' := hne c' hc'
    split_ifs with hmiss
    · dsimp only
      intro hnil
      have hl := congrArg List.length hnil
      rw [bfill_ffill_length] at hl
      simp only [List.length_nil] at hl
      rw [List.length_eq_zero] at hl
      exact h' hl
    · exact h'
  intro c hc
  unfold handle_missing_values at hc
  split_ifs at hc with h
  · obtain ⟨c', hc', rfl⟩ := List.mem_map.mp hc
    have h' := hfill c' hc'
    dsimp only
    intro hnil
    exact h' (List.map_eq_nil_iff.mp hnil)
  · exact hfill c hc

theorem handle_missing_good (w : Frame) (hne : ∀ c ∈ w, c.2 ≠ []) :
    ∀ c ∈ handle_missing_values w, goodCol c := by
  intro c hc
  exact ⟨handle_missing_nonempty w hne c hc, handle_missing_some w c hc⟩

theorem colNames_outliers (w : Frame) :
    colNames (handle_outliers w) = colNames w :=
  colNames_map_name _ _ (fun c => rfl)

theorem handleOutliersColumn_length (r : ℕ) (col : List (Option ℚ)) :
    (handleOutliersColumn r col).length = col.length := by
  simp only [handleOutliersColumn]
  split_ifs <;> simp [List.length_map]

theorem handleOutliersColumn_some (r : ℕ) (col : List (Option ℚ))
    (h : ∀ x ∈ col, x.isSome = true) :
    ∀ x ∈ handleOutliersColumn r col, x.isSome = true := by
  intro x hx
  simp only [handleOutliersColumn] at hx
  split_ifs at hx with h1 h2 h3
  · exact h x hx
  · exact h x hx
  · obtain ⟨y, hy, rfl⟩ := List.mem_map.mp hx
    obtain ⟨z, rfl⟩ := Option.isSome_iff_exists.mp (h y hy)
    rfl
  · obtain ⟨y, hy, rfl⟩ := List.mem_map.mp hx
    split_ifs with hm
    · rfl
    · exact h y hy

theorem outliers_good (w : Frame) (hg : ∀ c ∈ w, goodCol c) :
    ∀ c ∈ handle_outliers w, goodCol c := by
  intro c hc
  unfold handle_outliers at hc
  obtain ⟨c', hc', rfl⟩ := List.mem_map.mp hc
  have h' := hg c' hc'
  constructor
  · dsimp only
    intro hnil
    have hl := congrArg List.length hnil
    rw [handleOutliersColumn_length] at hl
    simp only [List.length_nil] at hl
    rw [List.length_eq_zero] at hl
    exact h'.1 hl
  · exact handleOutliersColumn_some _ _ h'.2

theorem colNames_scale (w : Frame) :
    colNames (scale_features w) = colNames w :=
  colNames_map_name _ _ (fun c => rfl)

theorem robustScaleColumn_good (col : List (Option ℚ))
    (h : col ≠ [] ∧ ∀ x ∈ col, x.isSome = true) :
    robustScaleColumn col ≠ [] ∧
      ∀ x ∈ robustScaleColumn col, x.isSome = true := by
  simp only [robustScaleColumn]
  exact optionMap_col_good _ col h

theorem scale_good (w : Frame) (hg : ∀ c ∈ w, goodCol c) :
    ∀ c ∈ scale_features w, goodCol c := by
  intro c hc
  unfold scale_features at hc
  obtain ⟨c', hc', rfl⟩ := List.mem_map.mp hc
  exact robustScaleColumn_good c'.2 (hg c' hc')

theorem clean_rename_canonical (t : Frame)
    (h : ∀ c ∈ t, renameColumn (standardize_column_name c.1) = c.1) :
    clean_rename t = t := by
  unfold clean_rename
  rw [show t.map (fun c => (renameColumn (standardize_column_name c.1), c.2)) =
    t.map id from List.map_congr_left (fun c hc => by
      rw [h c hc]
      exact Prod.mk.eta),
    List.map_id]

theorem goodCol_any_some (c : String × List (Option ℚ)) (h : goodCol c) :
    c.2.any (fun x => x.isSome) = true := by
  obtain ⟨hne, hall⟩ := h
  rcases hc : c.2 with _ | ⟨x, xs⟩
  · exact absurd hc hne
  · rw [List.any_cons,
      hall x (by rw [hc]; exact List.mem_cons_self x xs), Bool.true_or]

theorem clean_keep_eq (u : Frame)
    (h : ∀ c ∈ u, c.2.any (fun x => x.isSome) = true) : clean_keep u = u := by
  unfold clean_keep
  exact List.filter_eq_self.mpr (fun c hc => by rw [h c hc])

theorem colNames_clean_range (u : Frame) :
    colNames (clean_range u) = colNames u :=
  colNames_map_name _ _ (fun c => rfl)

theorem rangeFilterColumn_length (n : String) (col : List (Option ℚ)) :
    (rangeFilterColumn n col).length = col.length := by
  unfold rangeFilterColumn
  rcases hp : parameter_ranges n with _ | ⟨lo, hi⟩ <;> simp [List.length_map]

theorem clean_nonempty (t : Frame) :
    ∀ c ∈ clean_and_standardize t, c.2 ≠ [] := by
  intro c hc
  unfold clean_and_standardize clean_range at hc
  obtain ⟨c', hc', rfl⟩ := List.mem_map.mp hc
  dsimp only
  unfold clean_keep at hc'
  have h2 := (List.mem_filter.mp hc').2
  intro hnil
  have hl := congrArg List.length hnil
  rw [rangeFilterColumn_length] at hl
  simp only [List.length_nil] at hl
  rw [List.length_eq_zero] at hl
  rw [hl] at h2
  simp at h2

theorem mem_colNames_clean_inv (t : Frame)
    (hc : ∀ c ∈ t, renameColumn (standardize_column_name c.1) = c.1)
    (n : String) (h : n ∈ colNames (clean_and_standardize t)) :
    n ∈ colNames t := by
  unfold clean_and_standardize at h
  rw [clean_rename_canonical t hc] at h
  unfold clean_range at h
  rw [colNames_map_name (clean_keep t)
    (fun c => (c.1, rangeFilterColumn c.1 c.2)) (fun c => rfl)] at h
  unfold clean_keep colNames at h
  obtain ⟨c, hcmem, rfl⟩ := List.mem_map.mp h
  exact List.mem_map_of_mem _ (List.mem_of_mem_filter hcmem)

theorem canonical_name_five :
    ∀ n ∈ ["heat_index", "density_altitude", "aqi_pm25", "aqi_pm10",
      "wave_energy"], renameColumn (standardize_column_name n) = n := by
  intro n hn
  fin_cases hn <;> decide

theorem prepare_good (t : Frame) : ∀ c ∈ prepare_features t, goodCol c := by
  unfold prepare_features
  exact scale_good _ (engineer_good _ (outliers_good _
    (handle_missing_good _ (clean_nonempty t))))

theorem prepare_canonical (t : Frame)
    (hc : ∀ c ∈ t, renameColumn (standardize_column_name c.1) = c.1) :
    ∀ c ∈ prepare_features t,
      renameColumn (standardize_column_name c.1) = c.1 := by
  intro c hcm
  have hn : c.1 ∈ colNames (prepare_features t) := List.mem_map_of_mem _ hcm
  unfold prepare_features at hn
  rw [colNames_scale] at hn
  rcases mem_colNames_engineer_inv _ _ hn with h | h
  · rw [colNames_outliers, colNames_handle_missing] at h
    have h2 := mem_colNames_clean_inv t hc _ h
    unfold colNames at h2
    obtain ⟨c0, hc0, he⟩ := List.mem_map.mp h2
    rw [← he]
    exact hc c0 hc0
  · exact canonical_name_five _ h

theorem prepare_closed (t : Frame) : engineeredClosed (prepare_features t) := by
  have h := engineer_closed
    (handle_outliers (handle_missing_values (clean_and_standardize t)))
  unfold prepare_features
  unfold engineeredClosed at h ⊢
  rw [colNames_scale]
  exact h

theorem prepare_colNames_stable (u : Frame)
    (hg : ∀ c ∈ u, goodCol c)
    (hcanon : ∀ c ∈ u, renameColumn (standardize_column_name c.1) = c.1)
    (hclosed : engineeredClosed u) :
    colNames (prepare_features u) = colNames u := by
  have hclean : clean_and_standardize u = clean_range u := by
    unfold clean_and_standardize
    rw [clean_rename_canonical u hcanon,
      clean_keep_eq u (fun c hcm => goodCol_any_some c (hg c hcm))]
  have hcl : engineeredClosed
      (handle_outliers (handle_missing_values (clean_range u))) := by
    unfold engineeredClosed
    rw [colNames_outliers, colNames_handle_missing, colNames_clean_range]
    exact hclosed
  unfold prepare_features
  rw [hclean, colNames_scale, colNames_engineer_closed _ hcl,
    colNames_outliers, colNames_handle_missing, colNames_clean_range]

/-- C4, amended.  The full-value idempotence the claim asserts fails (the
counterexample above), but the column structure is stable: for every frame
whose column names are canonical (fixed points of standardize-and-rename, as
all engine-internal parameter names are), a second run of `prepare_features`
reproduces exactly the column-name list of the first run. -/
theorem c4_column_stability (t : Frame)
    (hcanon : ∀ c ∈ t, renameColumn (standardize_column_name c.1) = c.1) :
    colNames (prepare_features (prepare_features t)) =
      colNames (prepare_features t) :=
  prepare_colNames_stable (prepare_features t) (prepare_good t)
    (prepare_canonical t hcanon) (prepare_closed t)

/-- Witness for C4's amended statement at the counterexample input. -/
theorem c4_column_stability_witness :
    colNames (prepare_features (prepare_features c4Input)) =
      colNames (prepare_features c4Input) := by
  apply c4_column_stability
  intro c hcm
  unfold c4Input at hcm
  rw [List.mem_singleton] at hcm
  subst hcm
  decide

/-- C5.  In the anomaly scorer's statistical path, for every prepared table:
a column is affected exactly when its weighted score (anomalous fraction
times importance weight) exceeds 0.3; the overall anomaly score is the mean
of the affected columns' weighted scores (0 when no column is affected); the
reported score is that value rounded to 4 places; and `is_anomaly` holds
exactly when the overall score exceeds 0.5. -/
theorem c5_statistical_path_spec (t : List (String × List ℚ)) :
    (statistical_anomaly_detection t).affected_parameters =
      (t.filter (fun c => decide (3/10 < weightedScore c))).map Prod.fst ∧
    statOverallScore t =
      (if t.filter (fun c => decide (3/10 < weightedScore c)) = [] then 0
       else lmean ((t.filter (fun c => decide (3/10 < weightedScore c))).map
         weightedScore)) ∧
    (statistical_anomaly_detection t).anomaly_score =
      pyRound4 (statOverallScore t) ∧
    ((statistical_anomaly_detection t).is_anomaly = true ↔
      1/2 < statOverallScore t) := by
  refine ⟨?_, ?_, rfl, ?_⟩
  · show (statLoop t).1 = _
    rw [statLoop_eq]
  · show (if (statLoop t).2 = [] then 0 else lmean (statLoop t).2) = _
    rw [statLoop_eq]
    by_cases hf : t.filter (fun c => decide (3/10 < weightedScore c)) = []
    · rw [hf]
      simp
    · rw [if_neg hf, if_neg (by simp [hf])]
  · show decide (1/2 < statOverallScore t) = true ↔ _
    rw [decide_eq_true_eq]

/-- C6.  With no trained storm model, classifying `c6Input` yields a storm
result with severity 5, `detected = true` and confidence at least 0.95 (here
exactly 1.0 after the low-pressure bonus and the cap). -/
theorem c6_storm_scenario :
    detect_single_threat "storm" c6Input false [] =
      some { threat_type := "storm", confidence := 1, severity := 5,
             detected := true, features_used := ["wind_speed", "pressure"] } ∧
    ((detect_single_threat "storm" c6Input false []).map
      ThreatDetectionResult.confidence).getD 0 ≥ 95/100 := by
  have hrule : rule_based_detection "storm" c6Input = (1, 5) := by
    have h1 : latestGet c6Input "wind_speed" 0 = 130 := rfl
    have h2 : latestGet c6Input "pressure" 1013 = 970 := rfl
    unfold rule_based_detection
    rw [if_pos rfl, h1, h2]
    norm_num [storm_rule, storm_base]
  have hav : ((threat_features "storm").filter
      (fun f => (c6Input.lookup f).isSome)) = ["wind_speed", "pressure"] := rfl
  have hres : detect_single_threat "storm" c6Input false [] =
      some { threat_type := "storm", confidence := 1, severity := 5,
             detected := true,
             features_used := ["wind_speed", "pressure"] } := by
    unfold detect_single_threat
    rw [hav, hrule]
    norm_num [pyRound4, pyRound, confidence_thresholds]
  refine ⟨hres, ?_⟩
  rw [hres]
  norm_num

/-- C9.  For the storm category of the classifier's rule-based path, two
inputs that agree on every feature other than `wind_speed` are ranked
monotonically: the one with the larger wind speed never receives a strictly
smaller severity. -/
theorem c9_storm_wind_monotone (t td : List (String × List ℚ))
    (hagree : ∀ name d, name ≠ "wind_speed" →
      latestGet t name d = latestGet td name d)
    (hws : latestGet t "wind_speed" 0 ≤ latestGet td "wind_speed" 0) :
    (rule_based_detection "storm" t).2 ≤ (rule_based_detection "storm" td).2 := by
  have hp := hagree "pressure" 1013 (by intro h; exact absurd h (by decide))
  unfold rule_based_detection
  rw [if_pos rfl, if_pos rfl, hp]
  exact storm_rule_mono _ _ _ hws

/-- Witness for C9 at two concrete single-reading inputs. -/
theorem c9_storm_wind_monotone_witness :
    (rule_based_detection "storm" [("wind_speed", [100]), ("pressure", [990])]).2 ≤
      (rule_based_detection "storm" [("wind_speed", [120]), ("pressure", [990])]).2 := by
  apply c9_storm_wind_monotone
  · intro name d hne
    rcases eq_or_ne name "pressure" with h | h
    · subst h
      rfl
    · have hb1 : (name == "wind_speed") = false := beq_eq_false_iff_ne.mpr hne
      have hb2 : (name == "pressure") = false := beq_eq_false_iff_ne.mpr h
      unfold latestGet
      simp only [List.lookup, hb1, hb2]
  · have h1 : latestGet [("wind_speed", ([100] : List ℚ)), ("pressure", [990])]
        "wind_speed" 0 = 100 := rfl
    have h2 : latestGet [("wind_speed", ([120] : List ℚ)), ("pressure", [990])]
        "wind_speed" 0 = 120 := rfl
    rw [h1, h2]
    norm_num

/-- C2, counterexample.  A single trained model reporting probability 0.58
yields ensemble confidence 0.58 and severity `int(0.58·5)+1 = 3`, while the
claimed formula `clamp(round(0.58·5)+1, 1, 5) = 4`; since the claimed
threshold-table reconciliation can only raise severity, the claim's value is
at least 4 and cannot equal the code's 3. -/
theorem c2_counterexample :
    (predict_with_ensemble [[29/50]]).1 = 29/50 ∧
      (predict_with_ensemble [[29/50]]).2 = 3 ∧
      (max 1 (min 5 (pyRound ((29/50 : ℚ) * 5) + 1))).toNat = 4 := by
  have hm : ([[(29 : ℚ)/50]].map modelVoteConfidence) = [29/50] := by
    simp [modelVoteConfidence]
  have hmean : lmean [(29 : ℚ)/50] = 29/50 := by
    norm_num [lmean]
  refine ⟨?_, ?_, ?_⟩
  · unfold predict_with_ensemble
    rw [hm, if_neg (by simp)]
    exact hmean
  · unfold predict_with_ensemble
    rw [hm, if_neg (by simp)]
    show (max 1 (min 5 (pyInt (lmean [(29 : ℚ)/50] * 5) + 1))).toNat = 3
    rw [hmean]
    norm_num [pyInt]
    rfl
  · norm_num [pyRound]
    rfl

theorem modelVoteConfidence_nonneg (row : List ℚ) (h : ∀ x ∈ row, 0 ≤ x) :
    0 ≤ modelVoteConfidence row := by
  unfold modelVoteConfidence
  split_ifs with hlen
  · exact h _ (lmax_mem row (by intro he; rw [he] at hlen; simp at hlen))
  · match row with
    | [] => simp
    | x :: xs => exact h x (List.mem_cons_self x xs)

/-- C2, amended.  In the trained path the returned severity equals
`clamp(int(confidence·5)+1, 1, 5)` — `int` truncates (equals the floor for
the non-negative probabilities involved) and no threshold table is
consulted. -/
theorem c2_trained_severity (rows : List (List ℚ)) (hne : rows ≠ [])
    (h : ∀ r ∈ rows, ∀ x ∈ r, 0 ≤ x) :
    (predict_with_ensemble rows).2 =
      (max 1 (min 5 (⌊(predict_with_ensemble rows).1 * 5⌋ + 1))).toNat := by
  have hmap : rows.map modelVoteConfidence ≠ [] := by
    intro hc
    exact hne (List.map_eq_nil_iff.mp hc)
  have havg : 0 ≤ lmean (rows.map modelVoteConfidence) := by
    apply lmean_nonneg
    intro x hx
    obtain ⟨r, hr, rfl⟩ := List.mem_map.mp hx
    exact modelVoteConfidence_nonneg r (fun y hy => (h r hr y hy))
  unfold predict_with_ensemble
  rw [if_neg hmap]
  show (max 1 (min 5 (pyInt (lmean (rows.map modelVoteConfidence) * 5) + 1))).toNat =
    (max 1 (min 5 (⌊lmean (rows.map modelVoteConfidence) * 5⌋ + 1))).toNat
  unfold pyInt
  rw [if_pos (by positivity)]

/-- Witness for C2's amended statement at the counterexample input. -/
theorem c2_trained_severity_witness :
    (predict_with_ensemble [[29/50]]).2 =
      (max 1 (min 5 (⌊(predict_with_ensemble [[29/50]]).1 * 5⌋ + 1))).toNat := by
  apply c2_trained_severity
  · simp
  · intro r hr x hx
    simp only [List.mem_singleton] at hr
    subst hr
    simp only [List.mem_singleton] at hx
    subst hx
    norm_num

/-- C7.  The PM2.5 AQI sub-index returns 50 at exactly 12.0 µg/m³, 51 at
12.1 µg/m³ (the next tier's lower bound), and 500 for every value above the
top breakpoint 350.4. -/
theorem c7_aqi_pm25_boundaries :
    pm25_to_aqi 12 = 50 ∧ pm25_to_aqi (121/10) = 51 ∧
      ∀ x : ℚ, 3504/10 < x → pm25_to_aqi x = 500 := by
  refine ⟨?_, ?_, ?_⟩
  · norm_num [pm25_to_aqi, pyRound]
  · norm_num [pm25_to_aqi, pyRound]
  · intro x hx
    unfold pm25_to_aqi
    split_ifs with h1 h2 h3 h4 h5 h6
    · exact absurd h1.2 (by linarith)
    · exact absurd h2.2 (by linarith)
    · exact absurd h3.2 (by linarith)
    · exact absurd h4.2 (by linarith)
    · exact absurd h5.2 (by linarith)
    · exact absurd h6.2 (by linarith)
    · rfl

/-- Witness for C7's saturation clause at 400 µg/m³. -/
theorem c7_aqi_pm25_boundaries_witness : pm25_to_aqi 400 = 500 :=
  c7_aqi_pm25_boundaries.2.2 400 (by norm_num)

/-- C8.  With fewer prepared rows than the configured minimum (50), the
empty record list included, `predict_threats` returns the well-formed empty
prediction: no predictions and metadata carrying the insufficient-data
message (the embedding is total, so no exception can escape). -/
theorem c8_insufficient_history (sqrtQ : ℚ → ℚ) (oracle : PredictOracle)
    (data : List (String × List (Option ℚ))) (fhs : Option (List ℕ))
    (h : nRows data < min_data_points) :
    predict_threats sqrtQ oracle data fhs =
      create_empty_prediction "Insufficient historical data" ∧
    (predict_threats sqrtQ oracle data fhs).predictions = [] ∧
    (predict_threats sqrtQ oracle data fhs).metadata_error =
      some "Insufficient historical data" := by
  have he : predict_threats sqrtQ oracle data fhs =
      create_empty_prediction "Insufficient historical data" := by
    unfold predict_threats
    rw [if_pos (Or.inr h)]
  refine ⟨he, ?_, ?_⟩ <;> rw [he] <;> rfl

/-- Witness for C8 on the empty record list. -/
theorem c8_insufficient_history_witness :
    predict_threats (fun q => q) (fun _ _ => none) [] none =
      create_empty_prediction "Insufficient historical data" :=
  (c8_insufficient_history (fun q => q) (fun _ _ => none) [] none
    (by norm_num [nRows, min_data_points])).1

/-- C10.  The descending-threshold loop of `_assess_threat_severity` returns
on the first satisfied threshold, so pressure and visibility can only ever
reach severity 2 (pressure ≤ 1000 hPa, visibility ≤ 5 km) or 1; because a
predicted alert needs severity ≥ 3, the predicted-alert list never contains
a pressure or visibility entry, whatever the fitted models return. -/
theorem c10_descending_thresholds :
    (∀ v : ℚ, assess_threat_severity "pressure" v =
      if v ≤ 1000 then 2 else 1) ∧
    (∀ v : ℚ, assess_threat_severity "visibility" v =
      if v ≤ 5 then 2 else 1) ∧
    (∀ (sqrtQ : ℚ → ℚ) (oracle : PredictOracle)
        (data : List (String × List (Option ℚ))) (fhs : Option (List ℕ)),
      ((predict_threats sqrtQ oracle data fhs).alerts_predicted.filter
        (fun a => a.parameter == "pressure" || a.parameter == "visibility")) =
          []) := by
  refine ⟨assess_pressure_eq, assess_visibility_eq, ?_⟩
  intro sqrtQ oracle data fhs
  rw [List.filter_eq_nil_iff]
  intro a ha
  simp only [Bool.or_eq_true, beq_iff_eq]
  have hmem : ∃ p preds ints, a ∈ alertsFor p (fhs.getD forecast_horizons)
      preds ints := by
    unfold predict_threats at ha
    split_ifs at ha with hg
    · exact absurd ha (by simp [create_empty_prediction])
    · have ha2 : a ∈ ((predictResults sqrtQ oracle
          (predictor_prepare_features data) (fhs.getD forecast_horizons)).map
            (fun r => alertsFor r.1 (fhs.getD forecast_horizons) r.2.1
              r.2.2.1)).flatten := ha
      obtain ⟨la, hla, haa⟩ := List.mem_flatten.mp ha2
      obtain ⟨r, _, rfl⟩ := List.mem_map.mp hla
      exact ⟨r.1, r.2.1, r.2.2.1, haa⟩
  obtain ⟨p, preds, ints, hin⟩ := hmem
  have hs := alertsFor_spec p _ preds ints a hin
  have h3 := hs.2.1
  rintro (hp | hp)
  · have hpe : p = "pressure" := hs.1 ▸ hp
    have h2 : a.severity ≤ 2 := by
      rw [hs.2.2, hpe, assess_pressure_eq]
      split_ifs <;> omega
    omega
  · have hpe : p = "visibility" := hs.1 ▸ hp
    have h2 : a.severity ≤ 2 := by
      rw [hs.2.2, hpe, assess_visibility_eq]
      split_ifs <;> omega
    omega

end OceanSentinel
